import Mathlib

/-!
A verification development for the richreports text-annotation engine.

The source represents a report as a two-dimensional grid of cells, one row
per source line plus one virtual trailing cell per row; `enrich` attaches a
pair of delimiter strings around an inclusive line/column range and
`render` produces the decorated string.

Modelling conventions:
* Python strings are `List Char`; `str.split` on a line feed is `splitNl`
  and `join` is `joinNl`.
* Python list indexing is `pyIdx`/`pyGet`: a negative index within range
  wraps around, an index out of range yields `none`, which the library
  surfaces as an `IndexError` (the specification's `OutOfRange` failure),
  modelled as `Err.outOfRange`.
* In-place mutation is explicit state passing: `enrich` returns the report
  after the call together with `some e` exactly when the Python code would
  raise; the returned report carries every mutation performed before the
  raise, matching Python's in-place semantics.
* The two whitespace scans iterate with an explicit fuel parameter that is
  larger than the number of steps of any terminating run; running out of
  fuel is reported as the distinct `Err.fuelExhausted` and is never
  conflated with an index error.
-/

namespace Richreports

/-- Failure modes: `outOfRange` models Python's `IndexError` (the
specification's `OutOfRange`); `fuelExhausted` is an artefact of the
fuel-based modelling of the whitespace scans. -/
inductive Err where
  | outOfRange
  | fuelExhausted
deriving DecidableEq, Repr

/-- Python `str.split` on a line feed: always returns at least one
(possibly empty) piece and retains no terminators. -/
def splitNl : List Char → List (List Char)
  | [] => [[]]
  | c :: cs =>
    if c = '\n' then [] :: splitNl cs
    else
      match splitNl cs with
      | [] => [[c]]
      | l :: ls => (c :: l) :: ls

/-- Joining a list of lines with a line feed separator. -/
def joinNl : List (List Char) → List Char
  | [] => []
  | [l] => l
  | l :: l2 :: ls => l ++ '\n' :: joinNl (l2 :: ls)

/-- One cell of the grid: the ordered delimiters rendered before the
character, the character itself (`none` for the virtual trailing cell,
whose Python representation is the empty string), and the ordered
delimiters rendered after the character. -/
structure Cell where
  pres : List (List Char)
  ch : Option Char
  posts : List (List Char)
deriving DecidableEq, Repr

/-- The report data structure (richreports.py, class `report`): the raw
source, its lines, the cell grid (with a dummy row in front so that line
numbering starts at 1), and the base location. -/
structure report where
  string : List Char
  lines : List (List Char)
  _stacks : List (List Cell)
  line : Int
  column : Int
deriving DecidableEq, Repr

/-- The row of cells built for one source line: one cell per character
plus the virtual trailing cell. -/
def initCells (l : List Char) : List Cell :=
  l.map (fun c => ⟨[], some c, []⟩) ++ [⟨[], none, []⟩]

/-- `report.__init__` (richreports.py 235-248). -/
def report.init (string : List Char) (line column : Int) : report :=
  { string := string
    lines := splitNl string
    _stacks := [] :: (splitNl string).map initCells
    line := line
    column := column }

/-- Resolve a Python list index: a non-negative index must be below the
length, a negative index within range wraps around. -/
def pyIdx (n : Nat) (i : Int) : Option (Fin n) :=
  if h : 0 ≤ i ∧ i < (n : Int) then some ⟨i.toNat, by omega⟩
  else if h2 : -(n : Int) ≤ i ∧ i < 0 then some ⟨(i + n).toNat, by omega⟩
  else none

/-- Python list subscripting: `l[i]` with wraparound for negative `i`,
`none` when Python would raise `IndexError`. -/
def pyGet (l : List α) (i : Int) : Option α :=
  (pyIdx l.length i).map fun k => l[k]

/-- Replace the element at a (valid, already resolved) position. -/
def listModify (f : α → α) : List α → Nat → List α
  | [], _ => []
  | a :: as, 0 => f a :: as
  | a :: as, n+1 => a :: listModify f as n

/-- Apply `f` to the cell addressed by the (Python-resolved) pair `p`;
`none` when either subscript would raise `IndexError`. -/
def modifyCell (grid : List (List Cell)) (p : Int × Int) (f : Cell → Cell) :
    Option (List (List Cell)) :=
  (pyIdx grid.length p.1).bind fun li =>
    (pyIdx grid[li].length p.2).map fun ci =>
      listModify (fun row => listModify f row ci.val) grid li.val

/-- The whitespace test of the scans: the cell character is a space or the
virtual-cell empty string. -/
def wsChar : Option Char → Bool
  | none => true
  | some c => c = ' '

/-- Append a delimiter to the pre-character stack of a cell. -/
def addPres (d : List Char) (c : Cell) : Cell := { c with pres := c.pres ++ [d] }

/-- Append a delimiter to the post-character stack of a cell. -/
def addPost (d : List Char) (c : Cell) : Cell := { c with posts := c.posts ++ [d] }

/-- `location.__add__`. -/
def locAdd (a b : Int × Int) : Int × Int := (a.1 + b.1, a.2 + b.2)

/-- `location.__sub__`. -/
def locSub (a b : Int × Int) : Int × Int := (a.1 - b.1, a.2 - b.2)

/-- Python tuple comparison `a > b` on locations (lexicographic). -/
def locGtB (a b : Int × Int) : Bool :=
  decide (b.1 < a.1) || (decide (a.1 = b.1) && decide (b.2 < a.2))

/-- Rendering of a single cell: the pre-character delimiters in reverse
order, the character, the post-character delimiters in order
(richreports.py 378-384, inner comprehension). -/
def renderCell (c : Cell) : List Char :=
  c.pres.reverse.flatten ++ c.ch.toList ++ c.posts.flatten

/-- Rendering of one row of cells. -/
def renderRow (row : List Cell) : List Char :=
  (row.map renderCell).flatten

/-- `report.render` (richreports.py 364-384): all rows but the dummy,
joined by line feeds. -/
def report.render (r : report) : List Char :=
  joinNl (r._stacks.tail.map renderRow)

/-- The inner loop of `_skip_whitespace_left` run whenever the column is 0:
advance the line past fully empty lines (richreports.py 257-258, 269-271). -/
def skipEmptyLoop (lines : List (List Char)) : Nat → Int → Except Err Int
  | 0, _ => .error .fuelExhausted
  | fuel+1, line =>
    match pyGet lines (line - 1) with
    | none => .error .outOfRange
    | some l => if l.isEmpty then skipEmptyLoop lines fuel (line + 1) else .ok line

/-- Fuel that always suffices for `skipEmptyLoop` starting at `line`. -/
def emptyFuel (lines : List (List Char)) (line : Int) : Nat :=
  lines.length + line.natAbs + 2

/-- Fuel that always suffices for the main whitespace-scan loops. -/
def skipFuel (lines : List (List Char)) (grid : List (List Cell)) (p : Int × Int) : Nat :=
  grid.foldr (fun row a => a + row.length + 2) 0 + lines.length + p.1.natAbs + p.2.natAbs + 8

/-- The main loop of `_skip_whitespace_left` (richreports.py 261-272):
move right (wrapping to the next line, skipping fully empty lines) while
the current cell holds whitespace; at the very last virtual cell of the
grid, stop there. -/
def skipLeftLoop (lines : List (List Char)) (grid : List (List Cell)) :
    Nat → Int → Int → Except Err (Int × Int)
  | 0, _, _ => .error .fuelExhausted
  | fuel+1, line, column =>
    match pyGet grid line with
    | none => .error .outOfRange
    | some row =>
      match pyGet row column with
      | none => .error .outOfRange
      | some cell =>
        if wsChar cell.ch then
          let column1 := column + 1
          if column1 = (row.length : Int) - 1 then
            if line = (grid.length : Int) - 1 then .ok (line, column1)
            else
              match skipEmptyLoop lines (emptyFuel lines (line + 1)) (line + 1) with
              | .error e => .error e
              | .ok line3 => skipLeftLoop lines grid fuel line3 0
          else
            if column1 = 0 then
              match skipEmptyLoop lines (emptyFuel lines line) line with
              | .error e => .error e
              | .ok line3 => skipLeftLoop lines grid fuel line3 column1
            else skipLeftLoop lines grid fuel line column1
        else .ok (line, column)

/-- `report._skip_whitespace_left` (richreports.py 250-273). -/
def report.skip_whitespace_left (r : report) (loc : Int × Int) : Except Err (Int × Int) :=
  if loc.2 = 0 then
    match skipEmptyLoop r.lines (emptyFuel r.lines loc.1) loc.1 with
    | .error e => .error e
    | .ok line2 => skipLeftLoop r.lines r._stacks (skipFuel r.lines r._stacks (line2, loc.2)) line2 loc.2
  else skipLeftLoop r.lines r._stacks (skipFuel r.lines r._stacks loc) loc.1 loc.2

/-- The loop of `_skip_whitespace_right` (richreports.py 281-288): move
left (wrapping to the end of the previous line) while the current cell
holds whitespace; at column 0 of line 1, stop there. -/
def skipRightLoop (grid : List (List Cell)) :
    Nat → Int → Int → Except Err (Int × Int)
  | 0, _, _ => .error .fuelExhausted
  | fuel+1, line, column =>
    match pyGet grid line with
    | none => .error .outOfRange
    | some row =>
      match pyGet row column with
      | none => .error .outOfRange
      | some cell =>
        if wsChar cell.ch then
          let column1 := column - 1
          if column1 = (-1 : Int) then
            if line = 1 then .ok (line, 0)
            else
              match pyGet grid (line - 1) with
              | none => .error .outOfRange
              | some row2 => skipRightLoop grid fuel (line - 1) ((row2.length : Int) - 1)
          else skipRightLoop grid fuel line column1
        else .ok (line, column)

/-- `report._skip_whitespace_right` (richreports.py 275-290). -/
def report.skip_whitespace_right (r : report) (loc : Int × Int) : Except Err (Int × Int) :=
  skipRightLoop r._stacks (skipFuel r.lines r._stacks loc) loc.1 loc.2

/-- The whitespace set of Python `str.strip()` with no argument (ASCII
whitespace; the wider Unicode set is never relevant to the claims). -/
def isPySpace (c : Char) : Bool :=
  c = ' ' || c = '\t' || c = '\n' || c = '\r' || c = '\x0b' || c = '\x0c'

/-- The column scan for the suffix placed on an intermediate line when
`skip_whitespace` is set (richreports.py 335-343): move left from the end
of the line while the cell holds whitespace, not before column 0 nor
before the range start. -/
def scanBack (row : List Cell) (startL startC line : Int) :
    Nat → Int → Except Err Int
  | 0, _ => .error .fuelExhausted
  | fuel+1, column =>
    match pyGet row column with
    | none => .error .outOfRange
    | some cell =>
      if wsChar cell.ch && decide (0 < column) &&
          (decide (startL < line) || decide (startC < column)) then
        scanBack row startL startC line fuel (column - 1)
      else .ok column

/-- The column scan for the intermediate-line delimiter placed at the
start of a line when `skip_whitespace` is set (richreports.py 351-359):
move right from column 0 while the cell holds whitespace, not past the
virtual cell nor past the range end. -/
def scanFwd (row : List Cell) (endL endC line : Int) :
    Nat → Int → Except Err Int
  | 0, _ => .error .fuelExhausted
  | fuel+1, column =>
    match pyGet row column with
    | none => .error .outOfRange
    | some cell =>
      if wsChar cell.ch && decide (column < (row.length : Int) - 1) &&
          (decide (line < endL) || decide (column < endC)) then
        scanFwd row endL endC line fuel (column + 1)
      else .ok column

/-- First half of one intermediate-line iteration (richreports.py 332-344):
unless the line is whitespace-only under `skip_whitespace`, append `right`
at the (possibly whitespace-adjusted) end of line `line`. -/
def imlRightStep (right : List Char) (skip_whitespace : Bool)
    (startL startC line : Int) (empty : Bool) (grid : List (List Cell)) :
    List (List Cell) × Option Err :=
  if !skip_whitespace || !empty then
    match pyGet grid line with
    | none => (grid, some .outOfRange)
    | some row =>
      match (if skip_whitespace then
               scanBack row startL startC line (row.length + 1) ((row.length : Int) - 1)
             else .ok ((row.length : Int) - 1)) with
      | .error e => (grid, some e)
      | .ok column =>
        match modifyCell grid (line, column) (addPost right) with
        | none => (grid, some .outOfRange)
        | some grid2 => (grid2, none)
  else (grid, none)

/-- Second half of one intermediate-line iteration (richreports.py
348-360): unless the line is whitespace-only under `skip_whitespace`,
append `left` at the (possibly whitespace-adjusted) start of line `line`. -/
def imlLeftStep (left : List Char) (skip_whitespace : Bool)
    (endL endC line : Int) (empty : Bool) (grid : List (List Cell)) :
    List (List Cell) × Option Err :=
  if !skip_whitespace || !empty then
    if skip_whitespace then
      match pyGet grid line with
      | none => (grid, some .outOfRange)
      | some row =>
        match scanFwd row endL endC line (row.length + 1) 0 with
        | .error e => (grid, some e)
        | .ok column =>
          match modifyCell grid (line, column) (addPres left) with
          | none => (grid, some .outOfRange)
          | some grid2 => (grid2, none)
    else
      match modifyCell grid (line, 0) (addPres left) with
      | none => (grid, some .outOfRange)
      | some grid2 => (grid2, none)
  else (grid, none)

/-- The `enrich_intermediate_lines` loop of `enrich` (richreports.py
329-360), one fuel unit per line strictly before the end line: append
`right` at the end of the current line and `left` at the start of the next
one, then advance. -/
def enrichLines (lines : List (List Char)) (left right : List Char) (skip_whitespace : Bool)
    (startL startC endL endC : Int) :
    Nat → List (List Cell) → Int → List (List Cell) × Option Err
  | 0, grid, line => (grid, if line < endL then some .fuelExhausted else none)
  | fuel+1, grid, line =>
    if line < endL then
      match pyGet lines (line - 1) with
      | none => (grid, some .outOfRange)
      | some lstr =>
        match imlRightStep right skip_whitespace startL startC line (lstr.all isPySpace) grid with
        | (grid1, some e) => (grid1, some e)
        | (grid1, none) =>
          match pyGet lines line with
          | none => (grid1, some .outOfRange)
          | some lstr2 =>
            match imlLeftStep left skip_whitespace endL endC (line + 1) (lstr2.all isPySpace) grid1 with
            | (grid2, some e) => (grid2, some e)
            | (grid2, none) =>
              enrichLines lines left right skip_whitespace startL startC endL endC fuel grid2 (line + 1)
    else (grid, none)

/-- External-to-internal coordinate translation of `enrich`
(richreports.py 316-317): subtract the base location, add `(1, 0)`. -/
def report.normalize (r : report) (p : Int × Int) : Int × Int :=
  locAdd (locSub p (r.line, r.column)) (1, 0)

/-- `report.enrich` (richreports.py 292-362), with the two optional flags
explicit.  The result pairs the report after the call with `some e`
exactly when the Python code would raise; mutations performed before the
raise are kept, matching Python's in-place semantics. -/
def report.enrich (r : report) (start stop : Int × Int) (left right : List Char)
    (enrich_intermediate_lines skip_whitespace : Bool) :
    report × Option Err :=
  let start1 := r.normalize start
  let stop1 := r.normalize stop
  match (if skip_whitespace then r.skip_whitespace_left start1 else .ok start1) with
  | .error e => (r, some e)
  | .ok start2 =>
    match (if skip_whitespace then r.skip_whitespace_right stop1 else .ok stop1) with
    | .error e => (r, some e)
    | .ok stop2 =>
      if locGtB start2 stop2 then (r, none)
      else
        match modifyCell r._stacks start2 (addPres left) with
        | none => (r, some .outOfRange)
        | some grid1 =>
          match (if enrich_intermediate_lines then
                   enrichLines r.lines left right skip_whitespace start2.1 start2.2 stop2.1 stop2.2
                     ((stop2.1 - start2.1).toNat) grid1 start2.1
                 else (grid1, none)) with
          | (grid2, some e) => ({ r with _stacks := grid2 }, some e)
          | (grid2, none) =>
            match modifyCell grid2 stop2 (addPost right) with
            | none => ({ r with _stacks := grid2 }, some .outOfRange)
            | some grid3 => ({ r with _stacks := grid3 }, none)

/-- Shape invariant of a report's grid: a dummy row in front, then one row
per line holding one cell per character plus the virtual trailing cell. -/
def Wf (r : report) : Prop :=
  r._stacks.map List.length = 0 :: r.lines.map (fun l => l.length + 1)

instance (r : report) : Decidable (Wf r) :=
  inferInstanceAs (Decidable (r._stacks.map List.length =
    0 :: r.lines.map (fun l => l.length + 1)))

/-- The cell addressed by a resolved location, when both subscripts are
valid Python indices. -/
def resolveCell (grid : List (List Cell)) (p : Int × Int) : Option Cell :=
  (pyGet grid p.1).bind fun row => pyGet row p.2

/-- A location addresses a cell inside the grid: positive line resolving
to a row, non-negative column not past the virtual trailing cell. -/
def inGridB (r : report) (p : Int × Int) : Bool :=
  match pyGet r._stacks p.1 with
  | none => false
  | some row => decide (1 ≤ p.1) && decide (0 ≤ p.2) && decide (p.2 < (row.length : Int))

/-- Every grid cell lying (in reading order) between `s` and `e`
inclusive holds whitespace. -/
def allWsB (r : report) (s e : Int × Int) : Bool :=
  (List.range r._stacks.length).all fun li =>
    (List.range (r._stacks.getD li []).length).all fun ci =>
      !(decide (1 ≤ (li : Int)) && !locGtB s ((li : Int), (ci : Int)) &&
          !locGtB ((li : Int), (ci : Int)) e) ||
      wsChar (((r._stacks.getD li []).getD ci ⟨[], none, []⟩).ch)

/-- One cell extends another: same character, delimiter stacks extended
only by appending. -/
def cellExt (c d : Cell) : Prop :=
  d.ch = c.ch ∧ (∃ u, d.pres = c.pres ++ u) ∧ (∃ v, d.posts = c.posts ++ v)

/-- A grid extends another cell by cell: every previously attached
delimiter is still present, in its original position and order. -/
def gridExt (s t : List (List Cell)) : Prop :=
  List.Forall₂ (List.Forall₂ cellExt) s t

/-- The effect of the `enrich_intermediate_lines` loop (run with
`skip_whitespace` unset, from `line` up to the line before `eL`) on the
row at line `M`: rows after the loop's starting line and up to `eL` gain
`left` as a prefix of their first cell, rows from the starting line up to
the line before `eL` gain `right` as a suffix of their last cell. -/
def imlRowTransform (left right : List Char) (line eL M : Int) (row : List Cell) : List Cell :=
  let r1 := if line < M ∧ M ≤ eL then listModify (addPres left) row 0 else row
  if line ≤ M ∧ M < eL then listModify (addPost right) r1 (row.length - 1) else r1

/-- Two cells that render identically: the same character and the same
flattened delimiter text on each side. -/
def cellSim (c d : Cell) : Prop :=
  d.ch = c.ch ∧ d.pres.reverse.flatten = c.pres.reverse.flatten ∧
    d.posts.flatten = c.posts.flatten

/-- Two grids that render identically, cell by cell. -/
def gridSim (g g' : List (List Cell)) : Prop :=
  List.Forall₂ (List.Forall₂ cellSim) g g'

/-! ### Basic properties of the list-model primitives -/

theorem splitNl_ne_nil (s : List Char) : splitNl s ≠ [] := by
  cases s with
  | nil => simp [splitNl]
  | cons c cs =>
    simp only [splitNl]
    split
    · simp
    · cases h : splitNl cs <;> simp

theorem joinNl_cons (l : List Char) (ls : List (List Char)) (h : ls ≠ []) :
    joinNl (l :: ls) = l ++ '\n' :: joinNl ls := by
  cases ls with
  | nil => exact absurd rfl h
  | cons a as => rfl

theorem joinNl_cons_head (c : Char) (l : List Char) (ls : List (List Char)) :
    joinNl ((c :: l) :: ls) = c :: joinNl (l :: ls) := by
  cases ls with
  | nil => rfl
  | cons a as => rfl

theorem joinNl_splitNl (s : List Char) : joinNl (splitNl s) = s := by
  induction s with
  | nil => rfl
  | cons c cs ih =>
    by_cases hc : c = '\n'
    · subst hc
      have h1 : splitNl ('\n' :: cs) = [] :: splitNl cs := by simp [splitNl]
      rw [h1, joinNl_cons _ _ (splitNl_ne_nil cs), ih]
      rfl
    · obtain ⟨l, ls, hls⟩ : ∃ l ls, splitNl cs = l :: ls := by
        cases h : splitNl cs with
        | nil => exact absurd h (splitNl_ne_nil cs)
        | cons l ls => exact ⟨l, ls, rfl⟩
      have h1 : splitNl (c :: cs) = (c :: l) :: ls := by
        simp only [splitNl, if_neg hc, hls]
      rw [h1, joinNl_cons_head, ← hls, ih]

theorem renderRow_cons (x : Cell) (xs : List Cell) :
    renderRow (x :: xs) = renderCell x ++ renderRow xs := by
  simp [renderRow]

theorem renderRow_append (xs ys : List Cell) :
    renderRow (xs ++ ys) = renderRow xs ++ renderRow ys := by
  simp [renderRow]

theorem renderRow_initCells (l : List Char) : renderRow (initCells l) = l := by
  induction l with
  | nil => simp [initCells, renderRow, renderCell]
  | cons c cs ih =>
    have h1 : initCells (c :: cs) = ⟨[], some c, []⟩ :: initCells cs := by
      simp [initCells]
    rw [h1, renderRow_cons, ih]
    simp [renderCell]

/-- C1: rendering a freshly constructed, undecorated report returns the
source string exactly, whatever the numbering base. -/
theorem C1_render_identity (s : List Char) (line column : Int) :
    (report.init s line column).render = s := by
  show joinNl ((((report.init s line column)._stacks).tail).map renderRow) = s
  have h1 : (((report.init s line column)._stacks).tail) = (splitNl s).map initCells := rfl
  rw [h1, List.map_map]
  have h2 : (splitNl s).map (renderRow ∘ initCells) = splitNl s := by
    have : ∀ l ∈ splitNl s, (renderRow ∘ initCells) l = l := fun l _ => renderRow_initCells l
    rw [List.map_congr_left this]
    exact List.map_id' (splitNl s)
  rw [h2, joinNl_splitNl]

/-! ### Python indexing -/

theorem pyGet_nonneg (l : List α) (i : Int) (h0 : 0 ≤ i) :
    pyGet l i = l.get? i.toNat := by
  unfold pyGet pyIdx
  by_cases h : 0 ≤ i ∧ i < (l.length : Int)
  · rw [dif_pos h]
    have hlt : i.toNat < l.length := by omega
    simp [List.get?_eq_get hlt]
  · rw [dif_neg h]
    have h2 : ¬(-(l.length : Int) ≤ i ∧ i < 0) := by omega
    rw [dif_neg h2]
    have h3 : l.length ≤ i.toNat := by omega
    exact (List.get?_eq_none.2 h3).symm

theorem pyGet_some_bounds {l : List α} {i : Int} {a : α} (h : pyGet l i = some a) :
    -(l.length : Int) ≤ i ∧ i < (l.length : Int) := by
  unfold pyGet pyIdx at h
  by_cases h1 : 0 ≤ i ∧ i < (l.length : Int)
  · omega
  · rw [dif_neg h1] at h
    by_cases h2 : -(l.length : Int) ≤ i ∧ i < 0
    · omega
    · rw [dif_neg h2] at h
      simp at h

theorem pyGet_eq_some {l : List α} {i : Int} (h0 : 0 ≤ i) (h1 : i < (l.length : Int)) :
    ∃ a, pyGet l i = some a ∧ l.get? i.toNat = some a := by
  rw [pyGet_nonneg l i h0]
  have hlt : i.toNat < l.length := by omega
  exact ⟨l[i.toNat], List.get?_eq_get hlt, List.get?_eq_get hlt⟩

theorem listModify_length (f : α → α) (l : List α) (n : Nat) :
    (listModify f l n).length = l.length := by
  induction l generalizing n with
  | nil => rfl
  | cons a as ih =>
    cases n with
    | zero => rfl
    | succ m => simp [listModify, ih]

theorem listModify_get? (f : α → α) (l : List α) (n m : Nat) :
    (listModify f l n).get? m = if m = n then (l.get? m).map f else l.get? m := by
  induction l generalizing n m with
  | nil => simp [listModify]
  | cons a as ih =>
    cases n with
    | zero =>
      cases m with
      | zero => simp [listModify]
      | succ k => simp [listModify]
    | succ j =>
      cases m with
      | zero => simp [listModify]
      | succ k =>
        simp only [listModify, List.get?_cons_succ, ih]
        by_cases hk : k = j <;> simp [hk]

theorem listModify_map_length (f : List Cell → List Cell)
    (hf : ∀ x, (f x).length = x.length) (l : List (List Cell)) (n : Nat) :
    (listModify f l n).map List.length = l.map List.length := by
  induction l generalizing n with
  | nil => rfl
  | cons a as ih =>
    cases n with
    | zero => simp [listModify, hf]
    | succ m => simp [listModify, ih]

theorem pyIdx_pos_val {n : Nat} {i : Int} {k : Fin n} (h0 : 0 ≤ i)
    (h : pyIdx n i = some k) : k.val = i.toNat ∧ i < (n : Int) := by
  unfold pyIdx at h
  by_cases h1 : 0 ≤ i ∧ i < (n : Int)
  · rw [dif_pos h1] at h
    cases h
    exact ⟨rfl, h1.2⟩
  · have h2 : ¬(-(n : Int) ≤ i ∧ i < 0) := by omega
    rw [dif_neg h1, dif_neg h2] at h
    simp at h

/-- The effect of a successful `modifyCell` at a non-negative address:
only the addressed row changes, and only at the addressed cell. -/
theorem modifyCell_spec (grid : List (List Cell)) (L C : Int) (f : Cell → Cell)
    (g' : List (List Cell)) (hL : 0 ≤ L) (hC : 0 ≤ C)
    (h : modifyCell grid (L, C) f = some g') :
    ∃ row, pyGet grid L = some row ∧ C < (row.length : Int) ∧
      pyGet g' L = some (listModify f row C.toNat) ∧
      (∀ M : Int, 0 ≤ M → M ≠ L → pyGet g' M = pyGet grid M) ∧
      g'.map List.length = grid.map List.length := by
  cases hli : pyIdx grid.length L with
  | none => simp [modifyCell, hli] at h
  | some li =>
    cases hci : pyIdx grid[li].length C with
    | none =>
      simp only [Fin.getElem_fin] at hci
      simp [modifyCell, hli, hci] at h
    | some ci =>
      simp only [modifyCell, hli, Option.some_bind] at h
      rw [hci] at h
      simp only [Option.map_some', Option.some.injEq] at h
      obtain ⟨hliv, hLlt⟩ := pyIdx_pos_val hL hli
      obtain ⟨hciv, hClt⟩ := pyIdx_pos_val hC hci
      have hClt2 : C < (grid[li.val].length : Int) := hClt
      have hget : grid.get? L.toNat = some grid[li.val] := by
        rw [← hliv]
        exact List.get?_eq_get li.isLt
      refine ⟨grid[li.val], ?_, hClt2, ?_, ?_, ?_⟩
      · rw [pyGet_nonneg grid L hL]
        exact hget
      · rw [pyGet_nonneg _ L hL, ← h, listModify_get?, if_pos (by omega : L.toNat = li.val),
          hget]
        simp [hciv]
      · intro M hM hne
        rw [pyGet_nonneg _ M hM, pyGet_nonneg _ M hM, ← h, listModify_get?]
        have hMa : ¬(M.toNat = li.val) := by omega
        rw [if_neg hMa]
      · rw [← h]
        exact listModify_map_length _ (fun x => listModify_length f x ci.val) grid li.val

/-- `modifyCell_spec` with the affected row given by the caller. -/
theorem modifyCell_spec2 (grid : List (List Cell)) (L C : Int) (f : Cell → Cell)
    (g' : List (List Cell)) (row : List Cell) (hL : 0 ≤ L) (hC : 0 ≤ C)
    (hrow : pyGet grid L = some row)
    (h : modifyCell grid (L, C) f = some g') :
    pyGet g' L = some (listModify f row C.toNat) ∧
    (∀ M : Int, 0 ≤ M → M ≠ L → pyGet g' M = pyGet grid M) ∧
    g'.map List.length = grid.map List.length := by
  obtain ⟨row', hrow', _, hAt, hOther, hSh⟩ := modifyCell_spec grid L C f g' hL hC h
  rw [hrow] at hrow'
  injection hrow' with he
  subst he
  exact ⟨hAt, hOther, hSh⟩

/-- A `modifyCell` whose resolution succeeds (non-negative in-range
subscripts) returns a new grid. -/
theorem modifyCell_isSome (grid : List (List Cell)) (L C : Int) (f : Cell → Cell)
    (row : List Cell) (hL : 0 ≤ L) (hC : 0 ≤ C)
    (hrow : pyGet grid L = some row) (hC2 : C < (row.length : Int)) :
    ∃ g', modifyCell grid (L, C) f = some g' := by
  unfold pyGet at hrow
  cases hli : pyIdx grid.length L with
  | none => rw [hli] at hrow; simp at hrow
  | some li =>
    rw [hli] at hrow
    simp only [Option.map_some', Option.some.injEq] at hrow
    cases hci : pyIdx grid[li].length C with
    | none =>
      exfalso
      unfold pyIdx at hci
      rw [hrow] at hci
      rw [dif_pos ⟨hC, hC2⟩] at hci
      simp at hci
    | some ci =>
      refine ⟨listModify (fun row => listModify f row ci.val) grid li.val, ?_⟩
      simp only [modifyCell, hli, Option.some_bind]
      rw [hci]
      simp

/-- `modifyCell` fails exactly when the cell does not resolve. -/
theorem modifyCell_eq_none (grid : List (List Cell)) (p : Int × Int) (f : Cell → Cell)
    (h : resolveCell grid p = none) : modifyCell grid p f = none := by
  cases hli : pyIdx grid.length p.1 with
  | none => simp [modifyCell, hli]
  | some li =>
    have hrow : pyGet grid p.1 = some grid[li] := by
      unfold pyGet; rw [hli]; rfl
    simp only [resolveCell, hrow, Option.some_bind] at h
    unfold pyGet at h
    cases hci : pyIdx grid[li].length p.2 with
    | none =>
      simp only [Fin.getElem_fin] at hci
      simp [modifyCell, hli, hci]
    | some ci => rw [hci] at h; simp at h

theorem pyIdx_eq_none_iff (n : Nat) (i : Int) :
    pyIdx n i = none ↔ (i < -(n : Int) ∨ (n : Int) ≤ i) := by
  unfold pyIdx
  by_cases h1 : 0 ≤ i ∧ i < (n : Int)
  · simp only [dif_pos h1]
    constructor
    · intro hh; exact absurd hh (by simp)
    · intro hh; omega
  · rw [dif_neg h1]
    by_cases h2 : -(n : Int) ≤ i ∧ i < 0
    · simp only [dif_pos h2]
      constructor
      · intro hh; exact absurd hh (by simp)
      · intro hh; omega
    · simp only [dif_neg h2]
      constructor
      · intro _; omega
      · intro _; trivial

theorem pyGet_eq_none_iff (l : List α) (i : Int) :
    pyGet l i = none ↔ (i < -(l.length : Int) ∨ (l.length : Int) ≤ i) := by
  unfold pyGet
  rw [← pyIdx_eq_none_iff]
  cases pyIdx l.length i <;> simp

theorem pyGet_map (f : α → β) (l : List α) (i : Int) :
    pyGet (l.map f) i = (pyGet l i).map f := by
  by_cases h1 : 0 ≤ i ∧ i < (l.length : Int)
  · have h1m : 0 ≤ i ∧ i < ((l.map f).length : Int) := by
      simpa using h1
    unfold pyGet pyIdx
    rw [dif_pos h1m, dif_pos h1]
    simp
  · have h1m : ¬(0 ≤ i ∧ i < ((l.map f).length : Int)) := by
      simpa using h1
    by_cases h2 : -(l.length : Int) ≤ i ∧ i < 0
    · have h2m : -((l.map f).length : Int) ≤ i ∧ i < 0 := by
        simpa using h2
      unfold pyGet pyIdx
      rw [dif_neg h1m, dif_pos h2m, dif_neg h1, dif_pos h2]
      simp
    · have h2m : ¬(-((l.map f).length : Int) ≤ i ∧ i < 0) := by
        simpa using h2
      unfold pyGet pyIdx
      rw [dif_neg h1m, dif_neg h2m, dif_neg h1, dif_neg h2]
      simp

theorem pyGet_length_of_shape {g1 g2 : List (List Cell)}
    (hsh : g2.map List.length = g1.map List.length) (i : Int) :
    (pyGet g2 i).map List.length = (pyGet g1 i).map List.length := by
  rw [← pyGet_map, ← pyGet_map, hsh]

theorem resolveCell_none_of_shape {g1 g2 : List (List Cell)}
    (hsh : g2.map List.length = g1.map List.length) (p : Int × Int)
    (h : resolveCell g1 p = none) : resolveCell g2 p = none := by
  unfold resolveCell at h ⊢
  cases h2 : pyGet g2 p.1 with
  | none => simp
  | some row2 =>
    have hl := pyGet_length_of_shape hsh p.1
    rw [h2] at hl
    cases h1 : pyGet g1 p.1 with
    | none => rw [h1] at hl; simp at hl
    | some row1 =>
      rw [h1] at hl h
      simp only [Option.map_some', Option.some.injEq] at hl
      simp only [Option.some_bind] at h ⊢
      rw [pyGet_eq_none_iff] at h ⊢
      omega

theorem modifyCell_isSome_of_shape {g1 g2 : List (List Cell)}
    (hsh : g2.map List.length = g1.map List.length)
    (p : Int × Int) (f : Cell → Cell) (row1 : List Cell) (hL : 0 ≤ p.1) (hC : 0 ≤ p.2)
    (hrow : pyGet g1 p.1 = some row1) (hC2 : p.2 < (row1.length : Int)) :
    ∃ g', modifyCell g2 p f = some g' := by
  have hl := pyGet_length_of_shape hsh p.1
  rw [hrow] at hl
  cases h2 : pyGet g2 p.1 with
  | none => rw [h2] at hl; simp at hl
  | some row2 =>
    rw [h2] at hl
    simp only [Option.map_some', Option.some.injEq] at hl
    have hlt : p.2 < (row2.length : Int) := by omega
    obtain ⟨g', hg⟩ := modifyCell_isSome g2 p.1 p.2 f row2 hL hC h2 hlt
    exact ⟨g', hg⟩

theorem inGridB_spec {r : report} {p : Int × Int} (h : inGridB r p = true) :
    ∃ row, pyGet r._stacks p.1 = some row ∧ 1 ≤ p.1 ∧ 0 ≤ p.2 ∧ p.2 < (row.length : Int) := by
  unfold inGridB at h
  cases hr : pyGet r._stacks p.1 with
  | none => rw [hr] at h; simp at h
  | some row =>
    rw [hr] at h
    simp only [Bool.and_eq_true, decide_eq_true_eq] at h
    exact ⟨row, rfl, h.1.1, h.1.2, h.2⟩

/-! ### Claim C5: inverted ranges after adjustment are silent no-ops -/

/-- C5: whenever the endpoints, after coordinate normalization and (when
`skip_whitespace` is set) whitespace skipping, satisfy `start > stop`,
`enrich` attaches nothing, raises nothing, and leaves the report
unchanged. -/
theorem C5_inverted_noop (r : report) (start stop : Int × Int) (left right : List Char)
    (iml skip : Bool) (s2 e2 : Int × Int)
    (hs : (if skip then r.skip_whitespace_left (r.normalize start)
           else .ok (r.normalize start)) = .ok s2)
    (he : (if skip then r.skip_whitespace_right (r.normalize stop)
           else .ok (r.normalize stop)) = .ok e2)
    (hgt : locGtB s2 e2 = true) :
    r.enrich start stop left right iml skip = (r, none) := by
  simp only [report.enrich, hs, he, hgt, if_true]

/-- Witness for C5: a concrete inverted range on a concrete report. -/
theorem C5_inverted_noop_witness :
    (report.init "ab".toList 1 0).enrich (1, 1) (1, 0) "<".toList ">".toList false false =
      (report.init "ab".toList 1 0, none) :=
  C5_inverted_noop (report.init "ab".toList 1 0) (1, 1) (1, 0) "<".toList ">".toList
    false false (1, 1) (1, 0) (by rfl) (by rfl) (by decide)

/-! ### Claim C10: a failing enrich call is not atomic -/

/-- C10: with default flags, `enrich` appends the left delimiter at the
start cell before the end cell is ever accessed, so when the start cell is
inside the grid, `start ≤ stop`, and the end subscripts fail to resolve,
the call raises but the grid keeps the freshly attached left delimiter. -/
theorem C10_left_attached_on_failure (r : report) (start stop : Int × Int)
    (left right : List Char) (g1 : List (List Cell))
    (hstart : inGridB r (r.normalize start) = true)
    (hgt : locGtB (r.normalize start) (r.normalize stop) = false)
    (hmod : modifyCell r._stacks (r.normalize start) (addPres left) = some g1)
    (hend : resolveCell r._stacks (r.normalize stop) = none) :
    r.enrich start stop left right false false =
      ({ r with _stacks := g1 }, some Err.outOfRange) := by
  obtain ⟨row, hrow, h1, h2, h3⟩ := inGridB_spec hstart
  obtain ⟨_, _, _, _, _, hsh⟩ :=
    modifyCell_spec r._stacks (r.normalize start).1 (r.normalize start).2 (addPres left) g1
      (by omega) h2 hmod
  have hend1 : resolveCell g1 (r.normalize stop) = none :=
    resolveCell_none_of_shape hsh _ hend
  have hmod2 : modifyCell g1 (r.normalize stop) (addPost right) = none :=
    modifyCell_eq_none g1 (r.normalize stop) (addPost right) hend1
  simp only [report.enrich, hgt, hmod, hmod2, Bool.false_eq_true, if_false, ite_false]

theorem C10_left_attached_on_failure_witness :
    inGridB (report.init (['a']) 1 0) ((report.init (['a']) 1 0).normalize (1, 0)) = true ∧
    locGtB ((report.init (['a']) 1 0).normalize (1, 0))
      ((report.init (['a']) 1 0).normalize (5, 0)) = false ∧
    modifyCell (report.init (['a']) 1 0)._stacks
      ((report.init (['a']) 1 0).normalize (1, 0)) (addPres (['<'])) =
      some ([[], [⟨[['<']], some 'a', []⟩, ⟨[], none, []⟩]]) ∧
    resolveCell (report.init (['a']) 1 0)._stacks
      ((report.init (['a']) 1 0).normalize (5, 0)) = none ∧
    (report.init (['a']) 1 0).enrich (1, 0) (5, 0) (['<']) (['>']) false false =
      ({ report.init (['a']) 1 0 with
          _stacks := [[], [⟨[['<']], some 'a', []⟩, ⟨[], none, []⟩]] },
        some Err.outOfRange) :=
  ⟨by decide, by decide, by decide, by decide,
    C10_left_attached_on_failure (report.init (['a']) 1 0) (1, 0) (5, 0) (['<']) (['>'])
      ([[], [⟨[['<']], some 'a', []⟩, ⟨[], none, []⟩]])
      (by decide) (by decide) (by decide) (by decide)⟩

/-! ### Grid extension: enrich only ever appends delimiters -/

theorem forall₂_trans_of {R : α → α → Prop}
    (htrans : ∀ a b c, R a b → R b c → R a c) :
    ∀ {l1 l2 l3 : List α}, List.Forall₂ R l1 l2 → List.Forall₂ R l2 l3 →
      List.Forall₂ R l1 l3 := by
  intro l1 l2 l3 h12
  induction h12 generalizing l3 with
  | nil => intro h23; cases h23; exact List.Forall₂.nil
  | cons hab h ih =>
    intro h23
    cases h23 with
    | cons hbc h' => exact List.Forall₂.cons (htrans _ _ _ hab hbc) (ih h')

theorem cellExt_refl (c : Cell) : cellExt c c :=
  ⟨rfl, ⟨[], by simp⟩, ⟨[], by simp⟩⟩

theorem cellExt_trans (a b c : Cell) (h1 : cellExt a b) (h2 : cellExt b c) : cellExt a c := by
  obtain ⟨he1, ⟨u1, hu1⟩, ⟨v1, hv1⟩⟩ := h1
  obtain ⟨he2, ⟨u2, hu2⟩, ⟨v2, hv2⟩⟩ := h2
  exact ⟨he2.trans he1, ⟨u1 ++ u2, by rw [hu2, hu1, List.append_assoc]⟩,
    ⟨v1 ++ v2, by rw [hv2, hv1, List.append_assoc]⟩⟩

theorem cellExt_addPres (d : List Char) (c : Cell) : cellExt c (addPres d c) :=
  ⟨rfl, ⟨[d], rfl⟩, ⟨[], by simp [addPres]⟩⟩

theorem cellExt_addPost (d : List Char) (c : Cell) : cellExt c (addPost d c) :=
  ⟨rfl, ⟨[], by simp [addPost]⟩, ⟨[d], rfl⟩⟩

theorem gridExt_refl (g : List (List Cell)) : gridExt g g := by
  rw [gridExt, List.forall₂_same]
  intro row _
  rw [List.forall₂_same]
  intro c _
  exact cellExt_refl c

theorem gridExt_trans {g1 g2 g3 : List (List Cell)}
    (h1 : gridExt g1 g2) (h2 : gridExt g2 g3) : gridExt g1 g3 := by
  unfold gridExt at h1 h2 ⊢
  exact @forall₂_trans_of (List Cell) (List.Forall₂ cellExt)
    (fun a b c hab hbc => forall₂_trans_of cellExt_trans hab hbc) g1 g2 g3 h1 h2

theorem forall₂_listModify {R : α → α → Prop} (hrefl : ∀ a, R a a) (f : α → α)
    (hf : ∀ a, R a (f a)) : ∀ (l : List α) (n : Nat), List.Forall₂ R l (listModify f l n) := by
  intro l
  induction l with
  | nil => intro n; exact List.Forall₂.nil
  | cons a as ih =>
    intro n
    cases n with
    | zero => exact List.Forall₂.cons (hf a) (List.forall₂_same.2 fun x _ => hrefl x)
    | succ m => exact List.Forall₂.cons (hrefl a) (ih m)

theorem gridExt_modifyCell {grid g' : List (List Cell)} {p : Int × Int} {f : Cell → Cell}
    (hf : ∀ c, cellExt c (f c)) (h : modifyCell grid p f = some g') : gridExt grid g' := by
  cases hli : pyIdx grid.length p.1 with
  | none => simp [modifyCell, hli] at h
  | some li =>
    simp only [modifyCell, hli, Option.some_bind] at h
    cases hci : pyIdx grid[li].length p.2 with
    | none => rw [hci] at h; simp at h
    | some ci =>
      rw [hci] at h
      simp only [Option.map_some', Option.some.injEq] at h
      rw [← h]
      exact forall₂_listModify (fun row => List.forall₂_same.2 fun c _ => cellExt_refl c)
        _ (fun row => forall₂_listModify cellExt_refl f hf row ci.val) grid li.val

theorem modifyCell_shape {grid g' : List (List Cell)} {p : Int × Int} {f : Cell → Cell}
    (h : modifyCell grid p f = some g') : g'.map List.length = grid.map List.length := by
  cases hli : pyIdx grid.length p.1 with
  | none => simp [modifyCell, hli] at h
  | some li =>
    simp only [modifyCell, hli, Option.some_bind] at h
    cases hci : pyIdx grid[li].length p.2 with
    | none => rw [hci] at h; simp at h
    | some ci =>
      rw [hci] at h
      simp only [Option.map_some', Option.some.injEq] at h
      rw [← h]
      exact listModify_map_length _ (fun x => listModify_length f x ci.val) grid li.val

theorem modifyCell_none_congr {grid : List (List Cell)} {p : Int × Int} {f g : Cell → Cell}
    (h : modifyCell grid p f = none) : modifyCell grid p g = none := by
  cases hli : pyIdx grid.length p.1 with
  | none => simp [modifyCell, hli]
  | some li =>
    simp only [modifyCell, hli, Option.some_bind] at h ⊢
    cases hci : pyIdx grid[li].length p.2 with
    | none => simp
    | some ci => rw [hci] at h; simp at h

/-! ### The intermediate-line loop only appends, and raises only IndexError -/

theorem scanBack_error (row : List Cell) (sL sC line : Int) :
    ∀ (fuel : Nat) (column : Int), column.toNat < fuel →
      ∀ e, scanBack row sL sC line fuel column = .error e → e = Err.outOfRange := by
  intro fuel
  induction fuel with
  | zero => intro column h e; omega
  | succ n ih =>
    intro column h e hs
    simp only [scanBack] at hs
    cases hg : pyGet row column with
    | none =>
      simp only [hg] at hs
      cases hs
      rfl
    | some cell =>
      simp only [hg] at hs
      split at hs
      · next hguard =>
        simp only [Bool.and_eq_true, decide_eq_true_eq] at hguard
        exact ih (column - 1) (by omega) e hs
      · cases hs

theorem scanFwd_error (row : List Cell) (eL eC line : Int) :
    ∀ (fuel : Nat) (column : Int), ((row.length : Int) - 1 - column).toNat < fuel →
      ∀ e, scanFwd row eL eC line fuel column = .error e → e = Err.outOfRange := by
  intro fuel
  induction fuel with
  | zero => intro column h e; omega
  | succ n ih =>
    intro column h e hs
    simp only [scanFwd] at hs
    cases hg : pyGet row column with
    | none =>
      simp only [hg] at hs
      cases hs
      rfl
    | some cell =>
      simp only [hg] at hs
      split at hs
      · next hguard =>
        simp only [Bool.and_eq_true, decide_eq_true_eq] at hguard
        exact ih (column + 1) (by omega) e hs
      · cases hs

theorem imlRightStep_ext (right : List Char) (skip : Bool) (sL sC line : Int) (empty : Bool)
    (grid g' : List (List Cell)) (err : Option Err)
    (h : imlRightStep right skip sL sC line empty grid = (g', err)) :
    (err = none ∨ err = some Err.outOfRange) ∧
    g'.map List.length = grid.map List.length ∧ gridExt grid g' := by
  unfold imlRightStep at h
  split at h
  · cases hg : pyGet grid line with
    | none =>
      simp only [hg] at h
      cases h
      exact ⟨Or.inr rfl, rfl, gridExt_refl grid⟩
    | some row =>
      simp only [hg] at h
      cases hscan : (if skip then
          scanBack row sL sC line (row.length + 1) ((row.length : Int) - 1)
        else Except.ok ((row.length : Int) - 1)) with
      | error e =>
        rw [hscan] at h
        cases h
        refine ⟨Or.inr ?_, rfl, gridExt_refl grid⟩
        have he : e = Err.outOfRange := by
          cases hskip : skip with
          | false => rw [hskip] at hscan; simp at hscan
          | true =>
            rw [hskip] at hscan
            simp only [if_true] at hscan
            exact scanBack_error row sL sC line (row.length + 1) ((row.length : Int) - 1)
              (by omega) e hscan
        rw [he]
      | ok column =>
        rw [hscan] at h
        cases hmod : modifyCell grid (line, column) (addPost right) with
        | none =>
          simp only [hmod] at h
          cases h
          exact ⟨Or.inr rfl, rfl, gridExt_refl grid⟩
        | some g2 =>
          simp only [hmod] at h
          cases h
          exact ⟨Or.inl rfl, modifyCell_shape hmod, gridExt_modifyCell (cellExt_addPost right) hmod⟩
  · cases h
    exact ⟨Or.inl rfl, rfl, gridExt_refl grid⟩

theorem imlLeftStep_ext (left : List Char) (skip : Bool) (eL eC line : Int) (empty : Bool)
    (grid g' : List (List Cell)) (err : Option Err)
    (h : imlLeftStep left skip eL eC line empty grid = (g', err)) :
    (err = none ∨ err = some Err.outOfRange) ∧
    g'.map List.length = grid.map List.length ∧ gridExt grid g' := by
  unfold imlLeftStep at h
  split at h
  · split at h
    · cases hg : pyGet grid line with
      | none =>
        simp only [hg] at h
        cases h
        exact ⟨Or.inr rfl, rfl, gridExt_refl grid⟩
      | some row =>
        simp only [hg] at h
        cases hscan : scanFwd row eL eC line (row.length + 1) 0 with
        | error e =>
          rw [hscan] at h
          cases h
          refine ⟨Or.inr ?_, rfl, gridExt_refl grid⟩
          have he : e = Err.outOfRange :=
            scanFwd_error row eL eC line (row.length + 1) 0 (by omega) e hscan
          rw [he]
        | ok column =>
          rw [hscan] at h
          cases hmod : modifyCell grid (line, column) (addPres left) with
          | none =>
            simp only [hmod] at h
            cases h
            exact ⟨Or.inr rfl, rfl, gridExt_refl grid⟩
          | some g2 =>
            simp only [hmod] at h
            cases h
            exact ⟨Or.inl rfl, modifyCell_shape hmod, gridExt_modifyCell (cellExt_addPres left) hmod⟩
    · cases hmod : modifyCell grid (line, 0) (addPres left) with
      | none =>
        simp only [hmod] at h
        cases h
        exact ⟨Or.inr rfl, rfl, gridExt_refl grid⟩
      | some g2 =>
        simp only [hmod] at h
        cases h
        exact ⟨Or.inl rfl, modifyCell_shape hmod, gridExt_modifyCell (cellExt_addPres left) hmod⟩
  · cases h
    exact ⟨Or.inl rfl, rfl, gridExt_refl grid⟩

theorem enrichLines_ext (lines : List (List Char)) (left right : List Char) (skip : Bool)
    (sL sC eL eC : Int) :
    ∀ (fuel : Nat) (grid : List (List Cell)) (line : Int),
      (eL - line).toNat ≤ fuel →
      ∀ g' err, enrichLines lines left right skip sL sC eL eC fuel grid line = (g', err) →
        (err = none ∨ err = some Err.outOfRange) ∧
        g'.map List.length = grid.map List.length ∧ gridExt grid g' := by
  intro fuel
  induction fuel with
  | zero =>
    intro grid line hf g' err h
    simp only [enrichLines] at h
    have : ¬(line < eL) := by omega
    rw [if_neg this] at h
    cases h
    exact ⟨Or.inl rfl, rfl, gridExt_refl grid⟩
  | succ n ih =>
    intro grid line hf g' err h
    simp only [enrichLines] at h
    by_cases hlt : line < eL
    · rw [if_pos hlt] at h
      cases hl1 : pyGet lines (line - 1) with
      | none =>
        simp only [hl1] at h
        cases h
        exact ⟨Or.inr rfl, rfl, gridExt_refl grid⟩
      | some lstr =>
        simp only [hl1] at h
        cases hs1 : imlRightStep right skip sL sC line (lstr.all isPySpace) grid with
        | mk grid1 err1 =>
          obtain ⟨herr1, hsh1, hext1⟩ := imlRightStep_ext _ _ _ _ _ _ _ _ _ hs1
          rw [hs1] at h
          cases err1 with
          | some e =>
            simp only at h
            cases h
            cases herr1 with
            | inl h0 => cases h0
            | inr h0 => exact ⟨Or.inr h0, hsh1, hext1⟩
          | none =>
            simp only at h
            cases hl2 : pyGet lines line with
            | none =>
              simp only [hl2] at h
              cases h
              exact ⟨Or.inr rfl, hsh1, hext1⟩
            | some lstr2 =>
              simp only [hl2] at h
              cases hs2 : imlLeftStep left skip eL eC (line + 1) (lstr2.all isPySpace) grid1 with
              | mk grid2 err2 =>
                obtain ⟨herr2, hsh2, hext2⟩ := imlLeftStep_ext _ _ _ _ _ _ _ _ _ hs2
                rw [hs2] at h
                cases err2 with
                | some e =>
                  simp only at h
                  cases h
                  cases herr2 with
                  | inl h0 => cases h0
                  | inr h0 =>
                    exact ⟨Or.inr h0, hsh2.trans hsh1, gridExt_trans hext1 hext2⟩
                | none =>
                  simp only at h
                  obtain ⟨herr3, hsh3, hext3⟩ := ih grid2 (line + 1) (by omega) g' err h
                  exact ⟨herr3, hsh3.trans (hsh2.trans hsh1),
                    gridExt_trans (gridExt_trans hext1 hext2) hext3⟩
    · rw [if_neg hlt] at h
      cases h
      exact ⟨Or.inl rfl, rfl, gridExt_refl grid⟩

/-! ### Claim C2: out-of-grid endpoints and the OutOfRange failure -/

/-- C2 counterexample: the normalized start location `(-1, 0)` addresses
line `-1`, outside the grid of the report for `"ab"` (as `inGridB`
confirms); yet Python's negative-index wraparound silently resolves it to
the last row, so this `enrich` call raises nothing and decorates the
wrapped-to cell instead. -/
theorem C2_counterexample :
    inGridB (report.init "ab".toList 1 0)
        ((report.init "ab".toList 1 0).normalize (-1, 0)) = false ∧
    ((report.init "ab".toList 1 0).enrich (-1, 0) (1, 0)
        "<".toList ">".toList false false).2 = none ∧
    ((report.init "ab".toList 1 0).enrich (-1, 0) (1, 0)
        "<".toList ">".toList false false).1.render = "<a>b".toList :=
  ⟨by decide, by decide, by decide⟩

/-- C2 amended: with `skip_whitespace` unset and `start ≤ stop` after
normalization, an endpoint whose normalized subscripts fail Python index
resolution (rather than wrapping into range) makes `enrich` raise the
`OutOfRange` failure, and the failure aborts only this call: every
previously attached delimiter survives, in place and in order. -/
theorem C2_amended_out_of_range (r : report) (start stop : Int × Int)
    (left right : List Char) (iml : Bool)
    (hgt : locGtB (r.normalize start) (r.normalize stop) = false)
    (hfail : resolveCell r._stacks (r.normalize start) = none ∨
             resolveCell r._stacks (r.normalize stop) = none) :
    (r.enrich start stop left right iml false).2 = some Err.outOfRange ∧
    gridExt r._stacks ((r.enrich start stop left right iml false).1)._stacks := by
  cases hmod1 : modifyCell r._stacks (r.normalize start) (addPres left) with
  | none =>
    simp only [report.enrich, hgt, hmod1, Bool.false_eq_true, if_false, ite_false]
    exact ⟨trivial, gridExt_refl _⟩
  | some grid1 =>
    have hfail2 : resolveCell r._stacks (r.normalize stop) = none := by
      cases hfail with
      | inl h0 =>
        rw [modifyCell_eq_none r._stacks (r.normalize start) (addPres left) h0] at hmod1
        simp at hmod1
      | inr h0 => exact h0
    cases hbr : (if iml then
        enrichLines r.lines left right false (r.normalize start).1 (r.normalize start).2
          (r.normalize stop).1 (r.normalize stop).2
          (((r.normalize stop).1 - (r.normalize start).1).toNat) grid1 (r.normalize start).1
      else (grid1, none)) with
    | mk grid2 err2 =>
      have htrip : (err2 = none ∨ err2 = some Err.outOfRange) ∧
          grid2.map List.length = grid1.map List.length ∧ gridExt grid1 grid2 := by
        by_cases hi : iml
        · rw [if_pos hi] at hbr
          exact enrichLines_ext r.lines left right false (r.normalize start).1
            (r.normalize start).2 (r.normalize stop).1 (r.normalize stop).2 _ grid1
            (r.normalize start).1 (le_refl _) grid2 err2 hbr
        · rw [if_neg hi] at hbr
          cases hbr
          exact ⟨Or.inl rfl, rfl, gridExt_refl _⟩
      obtain ⟨herr2, hsh2, hext2⟩ := htrip
      have hext01 : gridExt r._stacks grid1 :=
        gridExt_modifyCell (cellExt_addPres left) hmod1
      cases err2 with
      | some e =>
        have he : e = Err.outOfRange := by
          cases herr2 with
          | inl h0 => cases h0
          | inr h0 => cases h0; rfl
        simp only [report.enrich, hgt, hmod1, hbr, Bool.false_eq_true, if_false, ite_false]
        subst he
        exact ⟨rfl, gridExt_trans hext01 hext2⟩
      | none =>
        have hsh01 : grid1.map List.length = r._stacks.map List.length :=
          modifyCell_shape hmod1
        have hfail3 : resolveCell grid2 (r.normalize stop) = none :=
          resolveCell_none_of_shape (hsh2.trans hsh01) _ hfail2
        have hmod2 : modifyCell grid2 (r.normalize stop) (addPost right) = none :=
          modifyCell_eq_none grid2 (r.normalize stop) _ hfail3
        simp only [report.enrich, hgt, hmod1, hbr, hmod2, Bool.false_eq_true, if_false,
          ite_false]
        exact ⟨trivial, gridExt_trans hext01 hext2⟩

/-- Witness for C2 amended: a concrete end point beyond the grid raises,
with the grid before the call extended (not rewritten) by the call. -/
theorem C2_amended_out_of_range_witness :
    ((report.init "ab".toList 1 0).enrich (1, 0) (9, 9)
        "<".toList ">".toList true false).2 = some Err.outOfRange ∧
    gridExt (report.init "ab".toList 1 0)._stacks
      (((report.init "ab".toList 1 0).enrich (1, 0) (9, 9)
        "<".toList ">".toList true false).1)._stacks :=
  C2_amended_out_of_range (report.init "ab".toList 1 0) (1, 0) (9, 9)
    "<".toList ">".toList true (by decide) (Or.inr (by decide))

/-! ### The grid shape invariant -/

theorem shape_grid_length {lines : List (List Char)} {grid : List (List Cell)}
    (hsh : grid.map List.length = 0 :: lines.map (fun l => l.length + 1)) :
    grid.length = lines.length + 1 := by
  have h := congrArg List.length hsh
  simpa using h

theorem shape_row_length {lines : List (List Char)} {grid : List (List Cell)}
    (hsh : grid.map List.length = 0 :: lines.map (fun l => l.length + 1))
    {M : Int} {row : List Cell} (hM : 1 ≤ M) (h : pyGet grid M = some row) :
    ∃ lstr, pyGet lines (M - 1) = some lstr ∧ row.length = lstr.length + 1 := by
  have hb := pyGet_some_bounds h
  have hlen := shape_grid_length hsh
  have h1 : (pyGet grid M).map List.length = pyGet (grid.map List.length) M :=
    (pyGet_map _ _ _).symm
  rw [h, hsh] at h1
  rw [pyGet_nonneg _ M (by omega)] at h1
  obtain ⟨k, hk⟩ : ∃ k, M.toNat = k + 1 := ⟨M.toNat - 1, by omega⟩
  rw [hk, List.get?_cons_succ, List.get?_map] at h1
  cases hl : lines.get? k with
  | none => rw [hl] at h1; simp at h1
  | some lstr =>
    rw [hl] at h1
    simp only [Option.map_some', Option.some.injEq] at h1
    refine ⟨lstr, ?_, h1⟩
    rw [pyGet_nonneg _ _ (by omega : (0 : Int) ≤ M - 1),
      show (M - 1).toNat = k from by omega]
    exact hl

theorem shape_row_exists {lines : List (List Char)} {grid : List (List Cell)}
    (hsh : grid.map List.length = 0 :: lines.map (fun l => l.length + 1))
    {M : Int} (h1 : 1 ≤ M) (h2 : M ≤ (lines.length : Int)) :
    ∃ row, pyGet grid M = some row ∧ 1 ≤ row.length := by
  have hlen := shape_grid_length hsh
  obtain ⟨row, hrow, _⟩ := @pyGet_eq_some _ grid M (by omega) (by omega)
  obtain ⟨lstr, _, hrl⟩ := shape_row_length hsh h1 hrow
  exact ⟨row, hrow, by omega⟩

/-! ### Exact effect of the intermediate-line loop when whitespace is kept -/

theorem enrichLines_false_spec (lines : List (List Char)) (left right : List Char)
    (sL sC eC : Int) (eL : Int) (heL : eL ≤ (lines.length : Int)) :
    ∀ (fuel : Nat) (grid : List (List Cell)) (line : Int),
      fuel = (eL - line).toNat → 1 ≤ line →
      grid.map List.length = 0 :: lines.map (fun l => l.length + 1) →
      ∃ grid', enrichLines lines left right false sL sC eL eC fuel grid line = (grid', none) ∧
        grid'.map List.length = grid.map List.length ∧
        ∀ (M : Int) (row : List Cell), 1 ≤ M → pyGet grid M = some row →
          pyGet grid' M = some (imlRowTransform left right line eL M row) := by
  intro fuel
  induction fuel with
  | zero =>
    intro grid line hfuel h1 hsh
    have hge : ¬(line < eL) := by omega
    refine ⟨grid, ?_, rfl, ?_⟩
    · simp only [enrichLines, hge, if_false]
    · intro M row hM hrow
      rw [hrow]
      have c1 : ¬(line ≤ M ∧ M < eL) := by omega
      have c2 : ¬(line < M ∧ M ≤ eL) := by omega
      simp [imlRowTransform, c1, c2]
  | succ n ih =>
    intro grid line hfuel h1 hsh
    have hlt : line < eL := by omega
    obtain ⟨lstr, hlstr, _⟩ := @pyGet_eq_some _ lines (line - 1) (by omega) (by omega)
    obtain ⟨rowL, hrowL, hrowLpos⟩ := shape_row_exists hsh h1 (by omega)
    -- the suffix half appends `right` at the last cell of `line`
    obtain ⟨ga, hga⟩ := modifyCell_isSome grid line ((rowL.length : Int) - 1) (addPost right)
      rowL (by omega) (by omega) hrowL (by omega)
    obtain ⟨hgaAt, hgaOther, hgaSh⟩ :=
      modifyCell_spec2 grid line ((rowL.length : Int) - 1) (addPost right) ga rowL
        (by omega) (by omega) hrowL hga
    have hstep1 : imlRightStep right false sL sC line (lstr.all isPySpace) grid = (ga, none) := by
      unfold imlRightStep
      simp only [Bool.not_false, Bool.true_or, if_true, hrowL, Bool.false_eq_true, if_false,
        ite_false, hga]
    -- the second half appends `left` at the first cell of `line + 1`
    obtain ⟨lstr2, hlstr2, _⟩ := @pyGet_eq_some _ lines line (by omega) (by omega)
    obtain ⟨rowN, hrowN, hrowNpos⟩ := shape_row_exists (hgaSh.trans hsh) (by omega : 1 ≤ line + 1)
      (by omega)
    obtain ⟨gb, hgb⟩ := modifyCell_isSome ga (line + 1) 0 (addPres left)
      rowN (by omega) (by omega) hrowN (by omega)
    obtain ⟨hgbAt, hgbOther, hgbSh⟩ :=
      modifyCell_spec2 ga (line + 1) 0 (addPres left) gb rowN (by omega) (by omega) hrowN hgb
    have hstep2 : imlLeftStep left false eL eC (line + 1) (lstr2.all isPySpace) ga = (gb, none) := by
      unfold imlLeftStep
      simp only [Bool.not_false, Bool.true_or, if_true, Bool.false_eq_true, if_false,
        ite_false, hgb]
    obtain ⟨grid', hrec, hshrec, hdesc⟩ := ih gb (line + 1) (by omega) (by omega)
      ((hgbSh.trans hgaSh).trans hsh)
    refine ⟨grid', ?_, (hshrec.trans hgbSh).trans hgaSh, ?_⟩
    · simp only [enrichLines, hlt, if_true, hlstr, hstep1, hlstr2, hstep2]
      exact hrec
    · intro M row hM hrow
      by_cases hMline : M = line
      · subst hMline
        have hrow' : row = rowL := by
          rw [hrowL] at hrow
          exact (Option.some.inj hrow).symm
        subst hrow'
        have hgb_at : pyGet gb M = pyGet ga M := hgbOther M (by omega) (by omega)
        have hfinal := hdesc M (listModify (addPost right) row ((row.length : Int) - 1).toNat)
          (by omega) (by rw [hgb_at]; exact hgaAt)
        rw [hfinal]
        simp only [imlRowTransform]
        rw [if_neg (by omega : ¬(M + 1 < M ∧ M ≤ eL)),
          if_neg (by omega : ¬(M + 1 ≤ M ∧ M < eL)),
          if_neg (by omega : ¬(M < M ∧ M ≤ eL)),
          if_pos (by omega : M ≤ M ∧ M < eL)]
        congr 2
        omega
      · have hga_at : pyGet ga M = pyGet grid M := hgaOther M (by omega) hMline
        by_cases hMnext : M = line + 1
        · subst hMnext
          have hrow' : row = rowN := by
            rw [hga_at, hrow] at hrowN
            exact Option.some.inj hrowN
          subst hrow'
          have hfinal := hdesc (line + 1) (listModify (addPres left) row (0 : Int).toNat)
            (by omega) hgbAt
          rw [hfinal]
          simp only [imlRowTransform]
          have hlen2 : (listModify (addPres left) row (0 : Int).toNat).length = row.length :=
            listModify_length _ _ _
          rw [if_neg (by omega : ¬(line + 1 < line + 1 ∧ line + 1 ≤ eL)),
            if_pos (by omega : line < line + 1 ∧ line + 1 ≤ eL)]
          by_cases hMe : line + 1 < eL
          · rw [if_pos (by omega : line + 1 ≤ line + 1 ∧ line + 1 < eL),
              if_pos (by omega : line ≤ line + 1 ∧ line + 1 < eL)]
            rw [hlen2]
            rfl
          · rw [if_neg (by omega : ¬(line + 1 ≤ line + 1 ∧ line + 1 < eL)),
              if_neg (by omega : ¬(line ≤ line + 1 ∧ line + 1 < eL))]
            rfl
        · have hgb_at : pyGet gb M = pyGet grid M := by
            rw [hgbOther M (by omega) hMnext]
            exact hga_at
          have hfinal := hdesc M row (by omega) (by rw [hgb_at]; exact hrow)
          rw [hfinal]
          simp only [imlRowTransform]
          by_cases hc1 : line < M ∧ M ≤ eL
          · rw [if_pos (by omega : line + 1 < M ∧ M ≤ eL), if_pos hc1]
            by_cases hc2 : line ≤ M ∧ M < eL
            · rw [if_pos (by omega : line + 1 ≤ M ∧ M < eL), if_pos hc2]
            · rw [if_neg (by omega : ¬(line + 1 ≤ M ∧ M < eL)), if_neg hc2]
          · rw [if_neg (by omega : ¬(line + 1 < M ∧ M ≤ eL)), if_neg hc1]
            by_cases hc2 : line ≤ M ∧ M < eL
            · exact absurd hc2 (by omega)
            · rw [if_neg (by omega : ¬(line + 1 ≤ M ∧ M < eL)), if_neg hc2]

theorem locGtB_false_elim (a b : Int × Int) (h : locGtB a b = false) :
    a.1 < b.1 ∨ (a.1 = b.1 ∧ a.2 ≤ b.2) := by
  unfold locGtB at h
  by_cases h1 : b.1 < a.1
  · rw [decide_eq_true h1] at h
    simp at h
  · by_cases h2 : a.1 = b.1
    · by_cases h3 : b.2 < a.2
      · rw [decide_eq_true h2, decide_eq_true h3] at h
        simp at h
      · right; exact ⟨h2, by omega⟩
    · left; omega

theorem locGtB_eq_false (a b : Int × Int) (h : a.1 < b.1 ∨ (a.1 = b.1 ∧ a.2 ≤ b.2)) :
    locGtB a b = false := by
  unfold locGtB
  rcases h with h | ⟨h1, h2⟩
  · rw [decide_eq_false (by omega : ¬b.1 < a.1), decide_eq_false (by omega : ¬a.1 = b.1)]
    simp
  · rw [decide_eq_false (by omega : ¬b.1 < a.1), decide_eq_false (by omega : ¬b.2 < a.2)]
    simp

/-! ### Claim C8: which calls can fail -/

/-- C8 counterexample: on the empty source both endpoints `(1, 0)` address
the single (virtual) grid cell, yet `enrich` with `skip_whitespace` set
fails: the forward whitespace scan runs past the final line while skipping
empty lines and indexes out of range. -/
theorem C8_counterexample :
    inGridB (report.init [] 1 0) ((report.init [] 1 0).normalize (1, 0)) = true ∧
    ((report.init [] 1 0).enrich (1, 0) (1, 0) "<i>".toList "</i>".toList false true).2 =
      some Err.outOfRange :=
  ⟨by decide, by decide⟩

/-- C8 amended: with `skip_whitespace` unset, `enrich` never fails when
both endpoints normalize into the grid, whatever `enrich_intermediate_lines`
is; only the whitespace scans can push a call with in-grid endpoints out of
the grid. -/
theorem C8_amended_no_failure (r : report) (hWf : Wf r) (start stop : Int × Int)
    (left right : List Char) (iml : Bool)
    (hs : inGridB r (r.normalize start) = true)
    (he : inGridB r (r.normalize stop) = true) :
    (r.enrich start stop left right iml false).2 = none := by
  obtain ⟨rowS, hrowS, hs1, hs2, hs3⟩ := inGridB_spec hs
  obtain ⟨rowE, hrowE, he1, he2, he3⟩ := inGridB_spec he
  by_cases hgt : locGtB (r.normalize start) (r.normalize stop) = true
  · simp only [report.enrich, Bool.false_eq_true, if_false, ite_false, hgt, if_true]
  · have hgt2 : locGtB (r.normalize start) (r.normalize stop) = false := by
      revert hgt
      cases locGtB (r.normalize start) (r.normalize stop) <;> simp
    have hWf' : r._stacks.map List.length = 0 :: r.lines.map (fun l => l.length + 1) := hWf
    have hstacksLen : r._stacks.length = r.lines.length + 1 := shape_grid_length hWf'
    have heLlt : (r.normalize stop).1 ≤ (r.lines.length : Int) := by
      have hb := pyGet_some_bounds hrowE
      omega
    obtain ⟨grid1, hg1⟩ := modifyCell_isSome r._stacks (r.normalize start).1
      (r.normalize start).2 (addPres left) rowS (by omega) hs2 hrowS hs3
    have hsh1 : grid1.map List.length = r._stacks.map List.length := modifyCell_shape hg1
    obtain ⟨grid2, hbr, hsh2⟩ :
        ∃ g2, (if iml then enrichLines r.lines left right false (r.normalize start).1
            (r.normalize start).2 (r.normalize stop).1 (r.normalize stop).2
            (((r.normalize stop).1 - (r.normalize start).1).toNat) grid1 (r.normalize start).1
          else (grid1, none)) = (g2, none) ∧
          g2.map List.length = grid1.map List.length := by
      by_cases hi : iml
      · rw [if_pos hi]
        obtain ⟨g2, hl, hsh, _⟩ := enrichLines_false_spec r.lines left right
          (r.normalize start).1 (r.normalize start).2 (r.normalize stop).2 (r.normalize stop).1
          heLlt (((r.normalize stop).1 - (r.normalize start).1).toNat) grid1
          (r.normalize start).1 rfl (by omega) (hsh1.trans hWf')
        exact ⟨g2, hl, hsh⟩
      · rw [if_neg hi]
        exact ⟨grid1, rfl, rfl⟩
    obtain ⟨grid3, hg3⟩ := modifyCell_isSome_of_shape (hsh2.trans hsh1) (r.normalize stop)
      (addPost right) rowE (by omega) he2 hrowE he3
    simp only [report.enrich, Bool.false_eq_true, if_false, ite_false, hgt2, hg1, hbr, hg3]

/-- Witness for C8 amended: a concrete two-line report enriched across
both lines with intermediate lines on. -/
theorem C8_amended_no_failure_witness :
    ((report.init "ab
cd".toList 1 0).enrich (1, 0) (2, 1)
      "<b>".toList "</b>".toList true false).2 = none :=
  C8_amended_no_failure (report.init "ab
cd".toList 1 0) (by decide) (1, 0) (2, 1)
    "<b>".toList "</b>".toList true (by decide) (by decide)

/-! ### Claims C6 and C9: the intermediate-line decorations -/

/-- C6: with `enrich_intermediate_lines` set and `skip_whitespace` at its
default, every line strictly between the normalized endpoint lines
receives the left delimiter appended as a prefix of its first cell and
the right delimiter appended as a suffix of its last (virtual) cell;
nothing else on that line changes. -/
theorem C6_intermediate_lines (r : report) (hWf : Wf r) (start stop : Int × Int)
    (left right : List Char)
    (hs : inGridB r (r.normalize start) = true)
    (he : inGridB r (r.normalize stop) = true) :
    ∀ (M : Int) (row : List Cell), (r.normalize start).1 < M → M < (r.normalize stop).1 →
      pyGet r._stacks M = some row →
      pyGet ((r.enrich start stop left right true false).1)._stacks M =
        some (listModify (addPost right) (listModify (addPres left) row 0) (row.length - 1)) := by
  intro M row hM1 hM2 hrow
  obtain ⟨rowS, hrowS, hs1, hs2, hs3⟩ := inGridB_spec hs
  obtain ⟨rowE, hrowE, he1, he2, he3⟩ := inGridB_spec he
  have hgt2 : locGtB (r.normalize start) (r.normalize stop) = false :=
    locGtB_eq_false _ _ (Or.inl (by omega))
  have hWf' : r._stacks.map List.length = 0 :: r.lines.map (fun l => l.length + 1) := hWf
  have hstacksLen : r._stacks.length = r.lines.length + 1 := shape_grid_length hWf'
  have heLlt : (r.normalize stop).1 ≤ (r.lines.length : Int) := by
    have hb := pyGet_some_bounds hrowE
    omega
  obtain ⟨grid1, hg1⟩ := modifyCell_isSome r._stacks (r.normalize start).1
    (r.normalize start).2 (addPres left) rowS (by omega) hs2 hrowS hs3
  obtain ⟨hg1At, hg1Other, hsh1⟩ := modifyCell_spec2 r._stacks (r.normalize start).1
    (r.normalize start).2 (addPres left) grid1 rowS (by omega) hs2 hrowS hg1
  obtain ⟨grid2, hloop, hsh2, hdesc⟩ := enrichLines_false_spec r.lines left right
    (r.normalize start).1 (r.normalize start).2 (r.normalize stop).2 (r.normalize stop).1
    heLlt (((r.normalize stop).1 - (r.normalize start).1).toNat) grid1
    (r.normalize start).1 rfl (by omega) (hsh1.trans hWf')
  obtain ⟨grid3, hg3⟩ := modifyCell_isSome_of_shape (hsh2.trans hsh1) (r.normalize stop)
    (addPost right) rowE (by omega) he2 hrowE he3
  obtain ⟨rowE2, hrowE2, _⟩ := @pyGet_eq_some _ grid2 (r.normalize stop).1 (by omega)
    (by
      have hb := pyGet_some_bounds hrowE
      have hlen2 : grid2.length = r._stacks.length := by
        have := congrArg List.length ((hsh2.trans hsh1))
        simpa using this
      omega)
  obtain ⟨hg3At, hg3Other, hsh3⟩ := modifyCell_spec2 grid2 (r.normalize stop).1
    (r.normalize stop).2 (addPost right) grid3 rowE2 (by omega) he2 hrowE2 hg3
  have henrich : r.enrich start stop left right true false = ({ r with _stacks := grid3 }, none) := by
    simp only [report.enrich, Bool.false_eq_true, if_false, ite_false, hgt2, hg1, if_true,
      hloop, hg3]
  rw [henrich]
  show pyGet grid3 M = _
  rw [hg3Other M (by omega) (by omega)]
  have hrow1 : pyGet grid1 M = some row := by
    rw [hg1Other M (by omega) (by omega)]
    exact hrow
  rw [hdesc M row (by omega) hrow1]
  simp only [imlRowTransform]
  rw [if_pos (by omega : (r.normalize start).1 < M ∧ M ≤ (r.normalize stop).1),
    if_pos (by omega : (r.normalize start).1 ≤ M ∧ M < (r.normalize stop).1)]

/-- Witness for C6: the middle line of a three-line report receives both
delimiters even though it holds no endpoint. -/
theorem C6_intermediate_lines_witness :
    pyGet (((report.init "aa
bb
cc".toList 1 0).enrich (1, 0) (3, 2)
        "<b>".toList "</b>".toList true false).1)._stacks 2 =
      some (listModify (addPost "</b>".toList)
        (listModify (addPres "<b>".toList) (initCells "bb".toList) 0)
        ((initCells "bb".toList).length - 1)) :=
  C6_intermediate_lines (report.init "aa
bb
cc".toList 1 0) (by decide) (1, 0) (3, 2)
    "<b>".toList "</b>".toList (by decide) (by decide) 2 (initCells "bb".toList)
    (by decide) (by decide) (by decide)

/-- C9: with `enrich_intermediate_lines` set and the range spanning more
than one line, the endpoint lines are decorated beyond the two anchored
delimiters: the start line also receives the right delimiter as a suffix
at its end-of-line cell, and the stop line also receives the left
delimiter as a prefix at its first cell. -/
theorem C9_endpoint_lines (r : report) (hWf : Wf r) (start stop : Int × Int)
    (left right : List Char)
    (hs : inGridB r (r.normalize start) = true)
    (he : inGridB r (r.normalize stop) = true)
    (hline : (r.normalize start).1 < (r.normalize stop).1) :
    (∀ row, pyGet r._stacks (r.normalize start).1 = some row →
      pyGet ((r.enrich start stop left right true false).1)._stacks (r.normalize start).1 =
        some (listModify (addPost right)
          (listModify (addPres left) row (r.normalize start).2.toNat) (row.length - 1))) ∧
    (∀ row, pyGet r._stacks (r.normalize stop).1 = some row →
      pyGet ((r.enrich start stop left right true false).1)._stacks (r.normalize stop).1 =
        some (listModify (addPost right) (listModify (addPres left) row 0)
          (r.normalize stop).2.toNat)) := by
  obtain ⟨rowS, hrowS, hs1, hs2, hs3⟩ := inGridB_spec hs
  obtain ⟨rowE, hrowE, he1, he2, he3⟩ := inGridB_spec he
  have hgt2 : locGtB (r.normalize start) (r.normalize stop) = false :=
    locGtB_eq_false _ _ (Or.inl (by omega))
  have hWf' : r._stacks.map List.length = 0 :: r.lines.map (fun l => l.length + 1) := hWf
  have hstacksLen : r._stacks.length = r.lines.length + 1 := shape_grid_length hWf'
  have heLlt : (r.normalize stop).1 ≤ (r.lines.length : Int) := by
    have hb := pyGet_some_bounds hrowE
    omega
  obtain ⟨grid1, hg1⟩ := modifyCell_isSome r._stacks (r.normalize start).1
    (r.normalize start).2 (addPres left) rowS (by omega) hs2 hrowS hs3
  obtain ⟨hg1At, hg1Other, hsh1⟩ := modifyCell_spec2 r._stacks (r.normalize start).1
    (r.normalize start).2 (addPres left) grid1 rowS (by omega) hs2 hrowS hg1
  obtain ⟨grid2, hloop, hsh2, hdesc⟩ := enrichLines_false_spec r.lines left right
    (r.normalize start).1 (r.normalize start).2 (r.normalize stop).2 (r.normalize stop).1
    heLlt (((r.normalize stop).1 - (r.normalize start).1).toNat) grid1
    (r.normalize start).1 rfl (by omega) (hsh1.trans hWf')
  obtain ⟨grid3, hg3⟩ := modifyCell_isSome_of_shape (hsh2.trans hsh1) (r.normalize stop)
    (addPost right) rowE (by omega) he2 hrowE he3
  obtain ⟨rowE2, hrowE2, _⟩ := @pyGet_eq_some _ grid2 (r.normalize stop).1 (by omega)
    (by
      have hb := pyGet_some_bounds hrowE
      have hlen2 : grid2.length = r._stacks.length := by
        have := congrArg List.length ((hsh2.trans hsh1))
        simpa using this
      omega)
  obtain ⟨hg3At, hg3Other, hsh3⟩ := modifyCell_spec2 grid2 (r.normalize stop).1
    (r.normalize stop).2 (addPost right) grid3 rowE2 (by omega) he2 hrowE2 hg3
  have henrich : r.enrich start stop left right true false = ({ r with _stacks := grid3 }, none) := by
    simp only [report.enrich, Bool.false_eq_true, if_false, ite_false, hgt2, hg1, if_true,
      hloop, hg3]
  constructor
  · intro row hrow
    have hrow' : row = rowS := by
      rw [hrowS] at hrow
      exact (Option.some.inj hrow).symm
    subst hrow'
    rw [henrich]
    show pyGet grid3 _ = _
    rw [hg3Other (r.normalize start).1 (by omega) (by omega)]
    have h1 := hdesc (r.normalize start).1
      (listModify (addPres left) row (r.normalize start).2.toNat) (by omega) hg1At
    rw [h1]
    simp only [imlRowTransform]
    rw [if_neg (by omega :
        ¬((r.normalize start).1 < (r.normalize start).1 ∧ (r.normalize start).1 ≤ (r.normalize stop).1)),
      if_pos (by omega :
        (r.normalize start).1 ≤ (r.normalize start).1 ∧ (r.normalize start).1 < (r.normalize stop).1)]
    rw [listModify_length]
  · intro row hrow
    have hrow' : row = rowE := by
      rw [hrowE] at hrow
      exact (Option.some.inj hrow).symm
    subst hrow'
    rw [henrich]
    show pyGet grid3 _ = _
    have hrow1 : pyGet grid1 (r.normalize stop).1 = some row := by
      rw [hg1Other (r.normalize stop).1 (by omega) (by omega)]
      exact hrowE
    have h1 := hdesc (r.normalize stop).1 row (by omega) hrow1
    have hrowE2' : rowE2 = imlRowTransform left right (r.normalize start).1
        (r.normalize stop).1 (r.normalize stop).1 row := by
      rw [hrowE2] at h1
      exact Option.some.inj h1
    rw [hg3At, hrowE2']
    simp only [imlRowTransform]
    rw [if_pos (by omega :
        (r.normalize start).1 < (r.normalize stop).1 ∧ (r.normalize stop).1 ≤ (r.normalize stop).1),
      if_neg (by omega :
        ¬((r.normalize start).1 ≤ (r.normalize stop).1 ∧ (r.normalize stop).1 < (r.normalize stop).1))]

/-- Witness for C9: in a three-line report enriched across lines 1-3, the
first line also gains the suffix at its end and the last line also gains
the prefix at its start. -/
theorem C9_endpoint_lines_witness :
    pyGet (((report.init "aa
bb
cc".toList 1 0).enrich (1, 1) (3, 1)
        "<b>".toList "</b>".toList true false).1)._stacks 1 =
      some (listModify (addPost "</b>".toList)
        (listModify (addPres "<b>".toList) (initCells "aa".toList) 1)
        ((initCells "aa".toList).length - 1)) :=
  (C9_endpoint_lines (report.init "aa
bb
cc".toList 1 0) (by decide) (1, 1) (3, 1)
    "<b>".toList "</b>".toList (by decide) (by decide) (by decide)).1
    (initCells "aa".toList) (by decide)

/-! ### Claim C3: single-line enrichment inserts the delimiters in place -/

theorem listModify_eq_set (f : α → α) (l : List α) (n : Nat) (a : α)
    (h : l.get? n = some a) : listModify f l n = l.set n (f a) := by
  induction l generalizing n with
  | nil => simp at h
  | cons x xs ih =>
    cases n with
    | zero =>
      simp only [List.get?_cons_zero, Option.some.injEq] at h
      subst h
      rfl
    | succ m =>
      simp only [List.get?_cons_succ] at h
      show x :: listModify f xs m = x :: xs.set m (f a)
      rw [ih m h]

theorem listModify_listModify_same (f g : α → α) (l : List α) (n : Nat) :
    listModify f (listModify g l n) n = listModify (fun x => f (g x)) l n := by
  induction l generalizing n with
  | nil => rfl
  | cons x xs ih =>
    cases n with
    | zero => rfl
    | succ m =>
      show x :: listModify f (listModify g xs m) m = x :: listModify (fun x => f (g x)) xs m
      rw [ih m]

theorem modifyCell_eq (grid : List (List Cell)) (L C : Int) (f : Cell → Cell)
    (row : List Cell) (hL : 0 ≤ L) (hC : 0 ≤ C)
    (hrow : pyGet grid L = some row) (hC2 : C < (row.length : Int)) :
    modifyCell grid (L, C) f =
      some (listModify (fun r2 => listModify f r2 C.toNat) grid L.toNat) := by
  unfold pyGet at hrow
  cases hli : pyIdx grid.length L with
  | none => rw [hli] at hrow; simp at hrow
  | some li =>
    rw [hli] at hrow
    simp only [Option.map_some', Option.some.injEq] at hrow
    obtain ⟨hliv, _⟩ := pyIdx_pos_val hL hli
    cases hci : pyIdx grid[li].length C with
    | none =>
      exfalso
      unfold pyIdx at hci
      rw [hrow] at hci
      rw [dif_pos ⟨hC, hC2⟩] at hci
      simp at hci
    | some ci =>
      obtain ⟨hciv, _⟩ := pyIdx_pos_val hC hci
      simp only [modifyCell, hli, Option.some_bind]
      rw [hci]
      simp only [Option.map_some', Option.some.injEq]
      rw [hliv, hciv]

theorem renderRow_post (right : List Char) :
    ∀ (l : List Char) (ec : Nat), ec ≤ l.length →
      renderRow (listModify (addPost right) (initCells l) ec) =
        l.take (ec + 1) ++ right ++ l.drop (ec + 1) := by
  intro l
  induction l with
  | nil =>
    intro ec hec
    simp only [List.length_nil] at hec
    have h0 : ec = 0 := by omega
    subst h0
    simp [initCells, listModify, renderRow, renderCell, addPost]
  | cons c cs ih =>
    intro ec hec
    have hinit : initCells (c :: cs) = ⟨[], some c, []⟩ :: initCells cs := by
      simp [initCells]
    cases ec with
    | zero =>
      rw [hinit]
      show renderRow (addPost right ⟨[], some c, []⟩ :: initCells cs) = _
      rw [renderRow_cons, renderRow_initCells]
      simp [renderCell, addPost]
    | succ e =>
      rw [hinit]
      show renderRow (⟨[], some c, []⟩ :: listModify (addPost right) (initCells cs) e) = _
      rw [renderRow_cons, ih e (by simpa using hec)]
      simp [renderCell]

theorem renderRow_pres_post (left right : List Char) :
    ∀ (l : List Char) (sc ec : Nat), sc ≤ ec → ec ≤ l.length →
      renderRow (listModify (addPost right) (listModify (addPres left) (initCells l) sc) ec) =
        l.take sc ++ left ++ (l.drop sc).take (ec + 1 - sc) ++ right ++ l.drop (ec + 1) := by
  intro l
  induction l with
  | nil =>
    intro sc ec h1 h2
    simp only [List.length_nil] at h2
    have hsc : sc = 0 := by omega
    have hec : ec = 0 := by omega
    subst hsc
    subst hec
    simp [initCells, listModify, renderRow, renderCell, addPres, addPost]
  | cons c cs ih =>
    intro sc ec h1 h2
    have hinit : initCells (c :: cs) = ⟨[], some c, []⟩ :: initCells cs := by
      simp [initCells]
    cases sc with
    | zero =>
      cases ec with
      | zero =>
        rw [hinit]
        show renderRow (addPost right (addPres left ⟨[], some c, []⟩) :: initCells cs) = _
        rw [renderRow_cons, renderRow_initCells]
        simp [renderCell, addPres, addPost]
      | succ e =>
        rw [hinit]
        show renderRow (addPres left ⟨[], some c, []⟩ ::
          listModify (addPost right) (initCells cs) e) = _
        rw [renderRow_cons, renderRow_post right cs e (by simpa using h2)]
        simp [renderCell, addPres]
    | succ sn =>
      cases ec with
      | zero => omega
      | succ e =>
        rw [hinit]
        show renderRow (⟨[], some c, []⟩ ::
          listModify (addPost right) (listModify (addPres left) (initCells cs) sn) e) = _
        rw [renderRow_cons, ih sn e (by omega) (by simpa using h2)]
        simp [renderCell, Nat.succ_sub_succ]

/-- C1-style identity for mapped rows, reused below. -/
theorem map_renderRow_initCells (ls : List (List Char)) :
    (ls.map initCells).map renderRow = ls := by
  rw [List.map_map]
  have h : ∀ x ∈ ls, (renderRow ∘ initCells) x = x := fun x _ => renderRow_initCells x
  rw [List.map_congr_left h]
  exact List.map_id' ls

/-- C3: a range confined to one line, enriched with both flags at their
defaults, renders as the source with `left` inserted immediately before
the start column's character and `right` immediately after the end
column's character, all other characters unchanged. -/
theorem C3_single_line (s : List Char) (L sc ec : Nat) (left right : List Char)
    (l : List Char)
    (hL1 : 1 ≤ L)
    (hl : (splitNl s).get? (L - 1) = some l)
    (hsc : sc ≤ ec) (hec : ec ≤ l.length) :
    ((report.init s 1 0).enrich ((L : Int), (sc : Int)) ((L : Int), (ec : Int))
        left right false false).1.render =
      joinNl ((splitNl s).set (L - 1)
        (l.take sc ++ left ++ (l.drop sc).take (ec + 1 - sc) ++ right ++ l.drop (ec + 1))) := by
  have hns : (report.init s 1 0).normalize ((L : Int), (sc : Int)) = ((L : Int), (sc : Int)) := by
    simp [report.normalize, locAdd, locSub, report.init]
  have hne : (report.init s 1 0).normalize ((L : Int), (ec : Int)) = ((L : Int), (ec : Int)) := by
    simp [report.normalize, locAdd, locSub, report.init]
  have hgt : locGtB ((L : Int), (sc : Int)) ((L : Int), (ec : Int)) = false :=
    locGtB_eq_false _ _ (Or.inr ⟨rfl, by
      show (sc : Int) ≤ (ec : Int)
      exact_mod_cast hsc⟩)
  have hlt : L - 1 < (splitNl s).length := by
    rcases List.get?_eq_some.1 hl with ⟨hlt, _⟩
    exact hlt
  have hrowL : pyGet (report.init s 1 0)._stacks (L : Int) = some (initCells l) := by
    rw [pyGet_nonneg _ _ (by omega)]
    have hL : ((L : Int)).toNat = (L - 1) + 1 := by omega
    rw [hL]
    show ([] :: (splitNl s).map initCells).get? (L - 1 + 1) = _
    rw [List.get?_cons_succ, List.get?_map, hl]
    rfl
  have hscn : ((sc : Int)).toNat = sc := by omega
  have hecn : ((ec : Int)).toNat = ec := by omega
  have hLn : ((L : Int)).toNat = L := by omega
  have hg1 := modifyCell_eq (report.init s 1 0)._stacks (L : Int) (sc : Int) (addPres left)
    (initCells l) (by omega) (by omega) hrowL
    (by
      have : (initCells l).length = l.length + 1 := by
        simp [initCells]
      omega)
  have hrow1 : pyGet (listModify (fun r2 => listModify (addPres left) r2 ((sc : Int)).toNat)
      (report.init s 1 0)._stacks ((L : Int)).toNat) (L : Int) =
      some (listModify (addPres left) (initCells l) sc) := by
    obtain ⟨hAt, _, _⟩ := modifyCell_spec2 (report.init s 1 0)._stacks (L : Int) (sc : Int)
      (addPres left) _ (initCells l) (by omega) (by omega) hrowL hg1
    rw [hscn] at hAt
    exact hAt
  have hg2 := modifyCell_eq _ (L : Int) (ec : Int) (addPost right)
    (listModify (addPres left) (initCells l) sc) (by omega) (by omega) hrow1
    (by
      rw [listModify_length]
      have : (initCells l).length = l.length + 1 := by
        simp [initCells]
      omega)
  have henrich : (report.init s 1 0).enrich ((L : Int), (sc : Int)) ((L : Int), (ec : Int))
      left right false false =
      ({ report.init s 1 0 with _stacks :=
        (listModify (fun r2 => listModify (addPost right) r2 ((ec : Int)).toNat)
          (listModify (fun r2 => listModify (addPres left) r2 ((sc : Int)).toNat)
            (report.init s 1 0)._stacks ((L : Int)).toNat) ((L : Int)).toNat) }, none) := by
    simp only [report.enrich, Bool.false_eq_true, if_false, ite_false, hns, hne, hgt, hg1, hg2]
  rw [henrich]
  show joinNl (List.tail (listModify _ (listModify _ ([] :: (splitNl s).map initCells) _) _)
    |>.map renderRow) = _
  rw [hscn, hecn, hLn]
  have hLsucc : L = (L - 1) + 1 := by omega
  rw [hLsucc]
  show joinNl ((listModify (fun r2 => listModify (addPost right) r2 ec)
      ([] :: listModify (fun r2 => listModify (addPres left) r2 sc)
        ((splitNl s).map initCells) (L - 1)) ((L - 1) + 1)).tail.map renderRow) = _
  show joinNl (((( [] : List Cell) :: listModify (fun r2 => listModify (addPost right) r2 ec)
      (listModify (fun r2 => listModify (addPres left) r2 sc)
        ((splitNl s).map initCells) (L - 1)) (L - 1)).tail).map renderRow) = _
  show joinNl ((listModify (fun r2 => listModify (addPost right) r2 ec)
      (listModify (fun r2 => listModify (addPres left) r2 sc)
        ((splitNl s).map initCells) (L - 1)) (L - 1)).map renderRow) = _
  rw [listModify_listModify_same]
  have hget : ((splitNl s).map initCells).get? (L - 1) = some (initCells l) := by
    rw [List.get?_map, hl]
    rfl
  rw [listModify_eq_set _ _ _ _ hget, List.map_set, map_renderRow_initCells,
    renderRow_pres_post left right l sc ec hsc hec]
  have hidx : L - 1 + 1 - 1 = L - 1 := by omega
  rw [hidx]

/-- Witness for C3: the docstring scenario, wrapping `x + y` on line 2 in
parentheses. -/
theorem C3_single_line_witness :
    ((report.init "def f(x, y):\n    return x + y".toList 1 0).enrich (2, 11) (2, 15)
        "(".toList ")".toList false false).1.render =
      "def f(x, y):\n    return (x + y)".toList :=
  (C3_single_line "def f(x, y):\n    return x + y".toList 2 11 15 "(".toList ")".toList
    "    return x + y".toList (by decide) (by decide) (by decide) (by decide)).trans (by decide)

/-! ### Claim C4: nesting order of delimiters sharing both endpoints -/

theorem cellSim_refl (c : Cell) : cellSim c c := ⟨rfl, rfl, rfl⟩

theorem gridSim_refl (g : List (List Cell)) : gridSim g g := by
  rw [gridSim, List.forall₂_same]
  intro row _
  rw [List.forall₂_same]
  intro c _
  exact cellSim_refl c

theorem renderRow_congr {row row' : List Cell} (h : List.Forall₂ cellSim row row') :
    renderRow row' = renderRow row := by
  induction h with
  | nil => rfl
  | cons hcd t ih =>
    rw [renderRow_cons, renderRow_cons, ih]
    obtain ⟨h1, h2, h3⟩ := hcd
    unfold renderCell
    rw [h1, h2, h3]

theorem map_renderRow_congr {l l' : List (List Cell)}
    (h : List.Forall₂ (List.Forall₂ cellSim) l l') :
    l'.map renderRow = l.map renderRow := by
  induction h with
  | nil => rfl
  | cons hrow t ih =>
    simp only [List.map_cons, ih, renderRow_congr hrow]

theorem render_eq_of_gridSim {g g' : List (List Cell)} (h : gridSim g g') :
    joinNl (g'.tail.map renderRow) = joinNl (g.tail.map renderRow) := by
  cases h with
  | nil => rfl
  | cons hrow htail =>
    simp only [List.tail_cons]
    rw [map_renderRow_congr htail]

theorem forall₂_listModify₂ {R : α → α → Prop} {f f' : α → α}
    (hf : ∀ a b, R a b → R (f a) (f' b)) :
    ∀ {l l' : List α}, List.Forall₂ R l l' → ∀ n : Nat,
      List.Forall₂ R (listModify f l n) (listModify f' l' n) := by
  intro l l' h
  induction h with
  | nil => intro n; exact List.Forall₂.nil
  | cons hab t ih =>
    intro n
    cases n with
    | zero => exact List.Forall₂.cons (hf _ _ hab) t
    | succ m => exact List.Forall₂.cons hab (ih m)

theorem listModify_comm {f g : α → α} (hfg : ∀ a, f (g a) = g (f a)) :
    ∀ (l : List α) (m n : Nat),
      listModify f (listModify g l n) m = listModify g (listModify f l m) n := by
  intro l
  induction l with
  | nil => intro m n; rfl
  | cons x xs ih =>
    intro m n
    cases m with
    | zero =>
      cases n with
      | zero =>
        show f (g x) :: xs = g (f x) :: xs
        rw [hfg]
      | succ n2 => rfl
    | succ m2 =>
      cases n with
      | zero => rfl
      | succ n2 =>
        show x :: listModify f (listModify g xs n2) m2 = x :: listModify g (listModify f xs m2) n2
        rw [ih]

theorem gridSim_shape {g g' : List (List Cell)} (h : gridSim g g') :
    g'.map List.length = g.map List.length := by
  induction h with
  | nil => rfl
  | cons hrow htail ih =>
    simp only [List.map_cons, ih]
    have := List.Forall₂.length_eq hrow
    rw [this]

theorem pyIdx_map_val_congr {n m : Nat} (h : n = m) (i : Int) :
    (pyIdx n i).map Fin.val = (pyIdx m i).map Fin.val := by
  subst h
  rfl

theorem shape_getD_length {g g' : List (List Cell)}
    (hsh : g'.map List.length = g.map List.length) (i : Nat) :
    (g'.getD i []).length = (g.getD i []).length := by
  have h1 : (g'.get? i).map List.length = (g.get? i).map List.length := by
    rw [← List.get?_map, ← List.get?_map, hsh]
  rw [List.getD_eq_get?, List.getD_eq_get?]
  cases h2 : g'.get? i with
  | none =>
    rw [h2] at h1
    cases h3 : g.get? i with
    | none => rfl
    | some r => rw [h3] at h1; simp at h1
  | some r' =>
    rw [h2] at h1
    cases h3 : g.get? i with
    | none => rw [h3] at h1; simp at h1
    | some r =>
      rw [h3] at h1
      simp only [Option.map_some', Option.some.injEq] at h1
      simpa using h1

theorem modifyCell_some_elim {grid : List (List Cell)} {p : Int × Int} {f : Cell → Cell}
    {h : List (List Cell)} (hm : modifyCell grid p f = some h) :
    ∃ (i j : Nat), (pyIdx grid.length p.1).map Fin.val = some i ∧
      (pyIdx (grid.getD i []).length p.2).map Fin.val = some j ∧
      h = listModify (fun row => listModify f row j) grid i := by
  cases hli : pyIdx grid.length p.1 with
  | none => simp [modifyCell, hli] at hm
  | some li =>
    simp only [modifyCell, hli, Option.some_bind] at hm
    cases hci : pyIdx grid[li].length p.2 with
    | none => rw [hci] at hm; simp at hm
    | some ci =>
      rw [hci] at hm
      simp only [Option.map_some', Option.some.injEq] at hm
      have hgetd : grid.getD li.val [] = grid[li] := by
        rw [List.getD_eq_get?]
        rw [show grid.get? li.val = some grid[li.val] from List.get?_eq_get li.isLt]
        rfl
      refine ⟨li.val, ci.val, rfl, ?_, hm.symm⟩
      rw [hgetd, hci]
      rfl

theorem modifyCell_some_intro {grid : List (List Cell)} {p : Int × Int} (f : Cell → Cell)
    {i j : Nat} (hi : (pyIdx grid.length p.1).map Fin.val = some i)
    (hj : (pyIdx (grid.getD i []).length p.2).map Fin.val = some j) :
    modifyCell grid p f = some (listModify (fun row => listModify f row j) grid i) := by
  cases hli : pyIdx grid.length p.1 with
  | none => rw [hli] at hi; simp at hi
  | some li =>
    rw [hli] at hi
    simp only [Option.map_some', Option.some.injEq] at hi
    subst hi
    have hgetd : grid.getD li.val [] = grid[li] := by
      rw [List.getD_eq_get?]
      rw [show grid.get? li.val = some grid[li.val] from List.get?_eq_get li.isLt]
      rfl
    rw [hgetd] at hj
    cases hci : pyIdx grid[li].length p.2 with
    | none => rw [hci] at hj; simp at hj
    | some ci =>
      rw [hci] at hj
      simp only [Option.map_some', Option.some.injEq] at hj
      subst hj
      simp only [modifyCell, hli, Option.some_bind]
      rw [hci]
      rfl

theorem modifyCell_none_to_resolve {grid : List (List Cell)} {p : Int × Int} {f : Cell → Cell}
    (h : modifyCell grid p f = none) : resolveCell grid p = none := by
  cases hli : pyIdx grid.length p.1 with
  | none =>
    unfold resolveCell pyGet
    rw [hli]
    rfl
  | some li =>
    simp only [modifyCell, hli, Option.some_bind] at h
    cases hci : pyIdx grid[li].length p.2 with
    | none =>
      unfold resolveCell pyGet
      rw [hli]
      simp only [Option.map_some', Option.some_bind]
      rw [hci]
      rfl
    | some ci => rw [hci] at h; simp at h

theorem modifyCell_none_of_shape {g g' : List (List Cell)} {p : Int × Int}
    {f f' : Cell → Cell} (hsh : g'.map List.length = g.map List.length)
    (h : modifyCell g p f = none) : modifyCell g' p f' = none :=
  modifyCell_eq_none g' p f' (resolveCell_none_of_shape hsh p (modifyCell_none_to_resolve h))

theorem listModify_shape (f : Cell → Cell) (g : List (List Cell)) (i j : Nat) :
    (listModify (fun row => listModify f row j) g i).map List.length = g.map List.length :=
  listModify_map_length _ (fun x => listModify_length f x j) g i

/-- The two cell updates performed by two pres-appends on one side and a
single combined pres-append on the other leave render-identical cells. -/
theorem cellSim_presPair (A C : List Char) {c d : Cell} (h : cellSim c d) :
    cellSim (addPres C (addPres A c)) (addPres (C ++ A) d) := by
  obtain ⟨h1, h2, h3⟩ := h
  refine ⟨h1, ?_, h3⟩
  simp only [addPres, List.reverse_append, List.flatten]
  simp [h2]

theorem cellSim_postPair (B D : List Char) {c d : Cell} (h : cellSim c d) :
    cellSim (addPost D (addPost B c)) (addPost (B ++ D) d) := by
  obtain ⟨h1, h2, h3⟩ := h
  refine ⟨h1, h2, ?_⟩
  simp only [addPost]
  simp [h3]

/-- C4 counterexample: two `enrich` calls sharing both endpoints on the
one-character source `"x"`.  The claim predicts the second call's
delimiters strictly inside the first call's (`"ACxDB"`); the code renders
the second call's delimiters strictly outside (`"CAxBD"`). -/
theorem C4_counterexample :
    (((report.init "x".toList 1 0).enrich (1, 0) (1, 0) "A".toList "B".toList
        false false).1.enrich (1, 0) (1, 0) "C".toList "D".toList false false).1.render =
      "CAxBD".toList ∧
    "CAxBD".toList ≠ "ACxDB".toList :=
  ⟨by decide, by decide⟩

theorem modifyCell_intro_of_shape {G X : List (List Cell)} {w : Int × Int} {i j : Nat}
    (hsh : X.map List.length = G.map List.length)
    (hi : (pyIdx G.length w.1).map Fin.val = some i)
    (hj : (pyIdx (G.getD i []).length w.2).map Fin.val = some j) (f : Cell → Cell) :
    modifyCell X w f = some (listModify (fun row => listModify f row j) X i) := by
  have hlen : X.length = G.length := by
    have h := congrArg List.length hsh
    simpa using h
  apply modifyCell_some_intro
  · rw [pyIdx_map_val_congr hlen]
    exact hi
  · rw [shape_getD_length hsh]
    exact hj

/-- C4 amended: within a cell the pre-character delimiters render in
reverse insertion order and the post-character delimiters in insertion
order, so of two `enrich` calls sharing both endpoints the SECOND call's
delimiters land strictly outside the first call's: the two calls render
exactly like one call with left delimiter `C ++ A` and right delimiter
`B ++ D`. -/
theorem C4_amended_second_call_outside (r : report) (p q : Int × Int) (A B C D : List Char) :
    (((r.enrich p q A B false false).1).enrich p q C D false false).1.render =
      (r.enrich p q (C ++ A) (B ++ D) false false).1.render := by
  by_cases hgt : locGtB (r.normalize p) (r.normalize q) = true
  · have h1 : r.enrich p q A B false false = (r, none) := by
      simp only [report.enrich, Bool.false_eq_true, if_false, ite_false, hgt, if_true]
    have h2 : r.enrich p q C D false false = (r, none) := by
      simp only [report.enrich, Bool.false_eq_true, if_false, ite_false, hgt, if_true]
    have h3 : r.enrich p q (C ++ A) (B ++ D) false false = (r, none) := by
      simp only [report.enrich, Bool.false_eq_true, if_false, ite_false, hgt, if_true]
    rw [h1, h3]
    show (r.enrich p q C D false false).1.render = r.render
    rw [h2]
  · have hgt2 : locGtB (r.normalize p) (r.normalize q) = false := by
      revert hgt
      cases locGtB (r.normalize p) (r.normalize q) <;> simp
    cases hm1 : modifyCell r._stacks (r.normalize p) (addPres A) with
    | none =>
      have hmC : modifyCell r._stacks (r.normalize p) (addPres C) = none :=
        modifyCell_none_congr hm1
      have hmCA : modifyCell r._stacks (r.normalize p) (addPres (C ++ A)) = none :=
        modifyCell_none_congr hm1
      have h1 : r.enrich p q A B false false = (r, some Err.outOfRange) := by
        simp only [report.enrich, Bool.false_eq_true, if_false, ite_false, hgt2, hm1]
      have h2 : r.enrich p q C D false false = (r, some Err.outOfRange) := by
        simp only [report.enrich, Bool.false_eq_true, if_false, ite_false, hgt2, hmC]
      have h3 : r.enrich p q (C ++ A) (B ++ D) false false = (r, some Err.outOfRange) := by
        simp only [report.enrich, Bool.false_eq_true, if_false, ite_false, hgt2, hmCA]
      rw [h1, h3]
      show (r.enrich p q C D false false).1.render = r.render
      rw [h2]
    | some g1 =>
      obtain ⟨ip, jp, hip, hjp, hg1⟩ := modifyCell_some_elim hm1
      subst hg1
      have hsh1 : (listModify (fun row => listModify (addPres A) row jp) r._stacks ip).map
          List.length = r._stacks.map List.length := listModify_shape _ _ _ _
      have eY1 : modifyCell r._stacks (r.normalize p) (addPres (C ++ A)) =
          some (listModify (fun row => listModify (addPres (C ++ A)) row jp) r._stacks ip) :=
        modifyCell_some_intro (addPres (C ++ A)) hip hjp
      have hshY1 : (listModify (fun row => listModify (addPres (C ++ A)) row jp)
          r._stacks ip).map List.length = r._stacks.map List.length := listModify_shape _ _ _ _
      cases hm2 : modifyCell (listModify (fun row => listModify (addPres A) row jp) r._stacks ip)
          (r.normalize q) (addPost B) with
      | none =>
        -- the end cell never resolves on any grid of this shape
        have e1 : r.enrich p q A B false false =
            ({ r with _stacks :=
              (listModify (fun row => listModify (addPres A) row jp) r._stacks ip) },
              some Err.outOfRange) := by
          simp only [report.enrich, Bool.false_eq_true, if_false, ite_false, hgt2, hm1, hm2]
        have eGp2 : modifyCell (listModify (fun row => listModify (addPres A) row jp)
            r._stacks ip) (r.normalize p) (addPres C) =
            some (listModify (fun row => listModify (addPres C) row jp)
              (listModify (fun row => listModify (addPres A) row jp) r._stacks ip) ip) :=
          modifyCell_intro_of_shape hsh1 hip hjp (addPres C)
        have hshGp2 : (listModify (fun row => listModify (addPres C) row jp)
            (listModify (fun row => listModify (addPres A) row jp) r._stacks ip) ip).map
            List.length =
            (listModify (fun row => listModify (addPres A) row jp) r._stacks ip).map
              List.length := listModify_shape _ _ _ _
        have eq2 : modifyCell (listModify (fun row => listModify (addPres C) row jp)
            (listModify (fun row => listModify (addPres A) row jp) r._stacks ip) ip)
            (r.normalize q) (addPost D) = none :=
          modifyCell_none_of_shape hshGp2 hm2
        have eq3 : modifyCell (listModify (fun row => listModify (addPres (C ++ A)) row jp)
            r._stacks ip) (r.normalize q) (addPost (B ++ D)) = none :=
          modifyCell_none_of_shape (hshY1.trans hsh1.symm) hm2
        have e3 : r.enrich p q (C ++ A) (B ++ D) false false =
            ({ r with _stacks :=
              (listModify (fun row => listModify (addPres (C ++ A)) row jp) r._stacks ip) },
              some Err.outOfRange) := by
          simp only [report.enrich, Bool.false_eq_true, if_false, ite_false, hgt2, eY1, eq3]
        have hgt2c : locGtB
            (({ r with _stacks :=
              (listModify (fun row => listModify (addPres A) row jp) r._stacks ip) } :
                report).normalize p)
            (({ r with _stacks :=
              (listModify (fun row => listModify (addPres A) row jp) r._stacks ip) } :
                report).normalize q) = false := hgt2
        have eGp2c : modifyCell
            (({ r with _stacks :=
              (listModify (fun row => listModify (addPres A) row jp) r._stacks ip) } :
                report)._stacks)
            (({ r with _stacks :=
              (listModify (fun row => listModify (addPres A) row jp) r._stacks ip) } :
                report).normalize p) (addPres C) =
            some (listModify (fun row => listModify (addPres C) row jp)
              (listModify (fun row => listModify (addPres A) row jp) r._stacks ip) ip) := eGp2
        have eq2c : modifyCell (listModify (fun row => listModify (addPres C) row jp)
            (listModify (fun row => listModify (addPres A) row jp) r._stacks ip) ip)
            (({ r with _stacks :=
              (listModify (fun row => listModify (addPres A) row jp) r._stacks ip) } :
                report).normalize q) (addPost D) = none := eq2
        have e2 : ({ r with _stacks :=
            (listModify (fun row => listModify (addPres A) row jp) r._stacks ip) } :
              report).enrich p q C D false false =
            ({ r with _stacks :=
              (listModify (fun row => listModify (addPres C) row jp)
                (listModify (fun row => listModify (addPres A) row jp) r._stacks ip) ip) },
              some Err.outOfRange) := by
          simp only [report.enrich, Bool.false_eq_true, if_false, ite_false, hgt2c, eGp2c, eq2c]
        rw [e1]
        show (({ r with _stacks :=
          (listModify (fun row => listModify (addPres A) row jp) r._stacks ip) } :
            report).enrich p q C D false false).1.render = _
        rw [e2, e3]
        show joinNl ((listModify (fun row => listModify (addPres C) row jp)
            (listModify (fun row => listModify (addPres A) row jp) r._stacks ip) ip).tail.map
            renderRow) =
          joinNl ((listModify (fun row => listModify (addPres (C ++ A)) row jp)
            r._stacks ip).tail.map renderRow)
        rw [listModify_listModify_same]
        simp only [listModify_listModify_same]
        refine (render_eq_of_gridSim ?_).symm
        apply forall₂_listModify₂
          (fun a b hab => forall₂_listModify₂ (fun c d hcd => cellSim_presPair A C hcd) hab jp)
        exact gridSim_refl r._stacks
      | some gq =>
        obtain ⟨iq, jq, hiq, hjq, hgq⟩ := modifyCell_some_elim hm2
        subst hgq
        have e1 : r.enrich p q A B false false =
            ({ r with _stacks :=
              (listModify (fun row => listModify (addPost B) row jq)
                (listModify (fun row => listModify (addPres A) row jp) r._stacks ip) iq) },
              none) := by
          simp only [report.enrich, Bool.false_eq_true, if_false, ite_false, hgt2, hm1, hm2]
        have hshX2 : (listModify (fun row => listModify (addPost B) row jq)
            (listModify (fun row => listModify (addPres A) row jp) r._stacks ip) iq).map
            List.length =
            (listModify (fun row => listModify (addPres A) row jp) r._stacks ip).map
              List.length := listModify_shape _ _ _ _
        have eGp2 : modifyCell (listModify (fun row => listModify (addPost B) row jq)
            (listModify (fun row => listModify (addPres A) row jp) r._stacks ip) iq)
            (r.normalize p) (addPres C) =
            some (listModify (fun row => listModify (addPres C) row jp)
              (listModify (fun row => listModify (addPost B) row jq)
                (listModify (fun row => listModify (addPres A) row jp) r._stacks ip) iq) ip) :=
          modifyCell_intro_of_shape (hshX2.trans hsh1) hip hjp (addPres C)
        have hshGp2 : (listModify (fun row => listModify (addPres C) row jp)
            (listModify (fun row => listModify (addPost B) row jq)
              (listModify (fun row => listModify (addPres A) row jp) r._stacks ip) iq) ip).map
            List.length =
            (listModify (fun row => listModify (addPost B) row jq)
              (listModify (fun row => listModify (addPres A) row jp) r._stacks ip) iq).map
              List.length := listModify_shape _ _ _ _
        have eGL : modifyCell (listModify (fun row => listModify (addPres C) row jp)
            (listModify (fun row => listModify (addPost B) row jq)
              (listModify (fun row => listModify (addPres A) row jp) r._stacks ip) iq) ip)
            (r.normalize q) (addPost D) =
            some (listModify (fun row => listModify (addPost D) row jq)
              (listModify (fun row => listModify (addPres C) row jp)
                (listModify (fun row => listModify (addPost B) row jq)
                  (listModify (fun row => listModify (addPres A) row jp) r._stacks ip) iq)
                ip) iq) :=
          modifyCell_intro_of_shape (hshGp2.trans hshX2) hiq hjq (addPost D)
        have eGR : modifyCell (listModify (fun row => listModify (addPres (C ++ A)) row jp)
            r._stacks ip) (r.normalize q) (addPost (B ++ D)) =
            some (listModify (fun row => listModify (addPost (B ++ D)) row jq)
              (listModify (fun row => listModify (addPres (C ++ A)) row jp) r._stacks ip) iq) :=
          modifyCell_intro_of_shape (hshY1.trans hsh1.symm) hiq hjq (addPost (B ++ D))
        have e3 : r.enrich p q (C ++ A) (B ++ D) false false =
            ({ r with _stacks :=
              (listModify (fun row => listModify (addPost (B ++ D)) row jq)
                (listModify (fun row => listModify (addPres (C ++ A)) row jp) r._stacks ip)
                iq) }, none) := by
          simp only [report.enrich, Bool.false_eq_true, if_false, ite_false, hgt2, eY1, eGR]
        have hgt2c : locGtB
            (({ r with _stacks :=
              (listModify (fun row => listModify (addPost B) row jq)
                (listModify (fun row => listModify (addPres A) row jp) r._stacks ip) iq) } :
                report).normalize p)
            (({ r with _stacks :=
              (listModify (fun row => listModify (addPost B) row jq)
                (listModify (fun row => listModify (addPres A) row jp) r._stacks ip) iq) } :
                report).normalize q) = false := hgt2
        have eGp2c : modifyCell
            (({ r with _stacks :=
              (listModify (fun row => listModify (addPost B) row jq)
                (listModify (fun row => listModify (addPres A) row jp) r._stacks ip) iq) } :
                report)._stacks)
            (({ r with _stacks :=
              (listModify (fun row => listModify (addPost B) row jq)
                (listModify (fun row => listModify (addPres A) row jp) r._stacks ip) iq) } :
                report).normalize p) (addPres C) =
            some (listModify (fun row => listModify (addPres C) row jp)
              (listModify (fun row => listModify (addPost B) row jq)
                (listModify (fun row => listModify (addPres A) row jp) r._stacks ip) iq) ip) :=
          eGp2
        have eGLc : modifyCell (listModify (fun row => listModify (addPres C) row jp)
            (listModify (fun row => listModify (addPost B) row jq)
              (listModify (fun row => listModify (addPres A) row jp) r._stacks ip) iq) ip)
            (({ r with _stacks :=
              (listModify (fun row => listModify (addPost B) row jq)
                (listModify (fun row => listModify (addPres A) row jp) r._stacks ip) iq) } :
                report).normalize q) (addPost D) =
            some (listModify (fun row => listModify (addPost D) row jq)
              (listModify (fun row => listModify (addPres C) row jp)
                (listModify (fun row => listModify (addPost B) row jq)
                  (listModify (fun row => listModify (addPres A) row jp) r._stacks ip) iq)
                ip) iq) := eGL
        have e2 : ({ r with _stacks :=
            (listModify (fun row => listModify (addPost B) row jq)
              (listModify (fun row => listModify (addPres A) row jp) r._stacks ip) iq) } :
              report).enrich p q C D false false =
            ({ r with _stacks :=
              (listModify (fun row => listModify (addPost D) row jq)
                (listModify (fun row => listModify (addPres C) row jp)
                  (listModify (fun row => listModify (addPost B) row jq)
                    (listModify (fun row => listModify (addPres A) row jp) r._stacks ip) iq)
                  ip) iq) }, none) := by
          simp only [report.enrich, Bool.false_eq_true, if_false, ite_false, hgt2c, eGp2c, eGLc]
        rw [e1]
        show (({ r with _stacks :=
          (listModify (fun row => listModify (addPost B) row jq)
            (listModify (fun row => listModify (addPres A) row jp) r._stacks ip) iq) } :
            report).enrich p q C D false false).1.render = _
        rw [e2, e3]
        show joinNl ((listModify (fun row => listModify (addPost D) row jq)
            (listModify (fun row => listModify (addPres C) row jp)
              (listModify (fun row => listModify (addPost B) row jq)
                (listModify (fun row => listModify (addPres A) row jp) r._stacks ip) iq)
              ip) iq).tail.map renderRow) =
          joinNl ((listModify (fun row => listModify (addPost (B ++ D)) row jq)
            (listModify (fun row => listModify (addPres (C ++ A)) row jp) r._stacks ip)
            iq).tail.map renderRow)
        have hstep1 : listModify (fun row => listModify (addPres C) row jp)
            (listModify (fun row => listModify (addPost B) row jq)
              (listModify (fun row => listModify (addPres A) row jp) r._stacks ip) iq) ip =
            listModify (fun row => listModify (addPost B) row jq)
              (listModify (fun row => listModify (addPres C) row jp)
                (listModify (fun row => listModify (addPres A) row jp) r._stacks ip) ip) iq :=
          listModify_comm (fun row => listModify_comm
              (fun c => (rfl : addPres C (addPost B c) = addPost B (addPres C c))) row jp jq)
            (listModify (fun row => listModify (addPres A) row jp) r._stacks ip) ip iq
        rw [hstep1]
        simp only [listModify_listModify_same]
        refine (render_eq_of_gridSim ?_).symm
        apply forall₂_listModify₂
          (fun a b hab => forall₂_listModify₂ (fun c d hcd => cellSim_postPair B D hcd) hab jq)
        apply forall₂_listModify₂
          (fun a b hab => forall₂_listModify₂ (fun c d hcd => cellSim_presPair A C hcd) hab jp)
        exact gridSim_refl r._stacks

/-! ### Claim C7: a whitespace-only range under skip_whitespace changes nothing -/

theorem locGtB_true_elim {a b : Int × Int} (h : locGtB a b = true) :
    b.1 < a.1 ∨ (a.1 = b.1 ∧ b.2 < a.2) := by
  unfold locGtB at h
  simp only [Bool.or_eq_true, Bool.and_eq_true, decide_eq_true_eq] at h
  exact h

theorem locGtB_eq_true (a b : Int × Int) (h : b.1 < a.1 ∨ (a.1 = b.1 ∧ b.2 < a.2)) :
    locGtB a b = true := by
  unfold locGtB
  simp only [Bool.or_eq_true, Bool.and_eq_true, decide_eq_true_eq]
  exact h

theorem getD_of_get? : ∀ {l : List α} {n : Nat} {a : α} (d : α),
    l.get? n = some a → l.getD n d = a := by
  intro l
  induction l with
  | nil => intro n a d h; simp at h
  | cons x xs ih =>
    intro n a d h
    cases n with
    | zero =>
      simp only [List.get?_cons_zero, Option.some.injEq] at h
      simp [List.getD, h]
    | succ m =>
      simp only [List.get?_cons_succ] at h
      simpa [List.getD] using ih d h

theorem skipEmptyLoop_le (lines : List (List Char)) :
    ∀ (fuel : Nat) (line line2 : Int),
      skipEmptyLoop lines fuel line = .ok line2 → line ≤ line2 := by
  intro fuel
  induction fuel with
  | zero => intro line line2 h; simp [skipEmptyLoop] at h
  | succ n ih =>
    intro line line2 h
    simp only [skipEmptyLoop] at h
    cases hg : pyGet lines (line - 1) with
    | none => simp only [hg] at h; cases h
    | some l =>
      simp only [hg] at h
      split at h
      · have := ih (line + 1) line2 h
        omega
      · cases h
        omega

theorem skipLeftLoop_spec (lines : List (List Char)) (grid : List (List Cell)) :
    ∀ (fuel : Nat) (L C : Int) (z : Int × Int),
      skipLeftLoop lines grid fuel L C = .ok z → 1 ≤ L → 0 ≤ C →
      (1 ≤ z.1 ∧ 0 ≤ z.2) ∧ (L < z.1 ∨ (L = z.1 ∧ C ≤ z.2)) ∧
      ((∃ cell, resolveCell grid z = some cell ∧ wsChar cell.ch = false) ∨ 1 ≤ z.2) := by
  intro fuel
  induction fuel with
  | zero => intro L C z h hL hC; simp [skipLeftLoop] at h
  | succ n ih =>
    intro L C z h hL hC
    simp only [skipLeftLoop] at h
    cases hg : pyGet grid L with
    | none => simp only [hg] at h; cases h
    | some row =>
      simp only [hg] at h
      cases hc : pyGet row C with
      | none => simp only [hc] at h; cases h
      | some cell =>
        simp only [hc] at h
        by_cases hws : wsChar cell.ch = true
        · simp only [hws, if_true] at h
          by_cases h1 : C + 1 = (row.length : Int) - 1
          · simp only [if_pos h1] at h
            by_cases h2 : L = (grid.length : Int) - 1
            · simp only [if_pos h2] at h
              cases h
              exact ⟨⟨(by omega : 1 ≤ L), (by omega : (0 : Int) ≤ C + 1)⟩,
                Or.inr ⟨rfl, (by omega : C ≤ C + 1)⟩, Or.inr (by omega : (1 : Int) ≤ C + 1)⟩
            · simp only [if_neg h2] at h
              cases hse : skipEmptyLoop lines (emptyFuel lines (L + 1)) (L + 1) with
              | error e => simp only [hse] at h; cases h
              | ok line3 =>
                simp only [hse] at h
                have hle := skipEmptyLoop_le lines _ _ _ hse
                obtain ⟨hb, hm, hs3⟩ := ih line3 0 z h (by omega) (by omega)
                exact ⟨hb, by omega, hs3⟩
          · simp only [if_neg h1] at h
            by_cases h0 : C + 1 = (0 : Int)
            · exact absurd h0 (by omega)
            · simp only [if_neg h0] at h
              obtain ⟨hb, hm, hs3⟩ := ih L (C + 1) z h hL (by omega)
              exact ⟨hb, by omega, hs3⟩
        · simp only [Bool.not_eq_true] at hws
          simp only [hws, Bool.false_eq_true, if_false, ite_false] at h
          cases h
          refine ⟨⟨hL, hC⟩, Or.inr ⟨rfl, le_refl C⟩, Or.inl ⟨cell, ?_, hws⟩⟩
          simp [resolveCell, hg, hc]

theorem skip_whitespace_left_spec {r : report} {loc z : Int × Int}
    (h : r.skip_whitespace_left loc = .ok z) (h1 : 1 ≤ loc.1) (h2 : 0 ≤ loc.2) :
    (1 ≤ z.1 ∧ 0 ≤ z.2) ∧ (loc.1 < z.1 ∨ (loc.1 = z.1 ∧ loc.2 ≤ z.2)) ∧
    ((∃ cell, resolveCell r._stacks z = some cell ∧ wsChar cell.ch = false) ∨ 1 ≤ z.2) := by
  unfold report.skip_whitespace_left at h
  by_cases h0 : loc.2 = 0
  · simp only [if_pos h0] at h
    cases hse : skipEmptyLoop r.lines (emptyFuel r.lines loc.1) loc.1 with
    | error e => simp only [hse] at h; cases h
    | ok line2 =>
      simp only [hse] at h
      have hle := skipEmptyLoop_le r.lines _ _ _ hse
      obtain ⟨hb, hm, hs3⟩ := skipLeftLoop_spec r.lines r._stacks _ line2 loc.2 z h (by omega) h2
      exact ⟨hb, by omega, hs3⟩
  · simp only [if_neg h0] at h
    exact skipLeftLoop_spec r.lines r._stacks _ loc.1 loc.2 z h h1 h2

theorem skipRightLoop_spec (lines : List (List Char)) (grid : List (List Cell))
    (hsh : grid.map List.length = 0 :: lines.map (fun l => l.length + 1)) :
    ∀ (fuel : Nat) (L C : Int) (z : Int × Int),
      skipRightLoop grid fuel L C = .ok z → 1 ≤ L → 0 ≤ C →
      (1 ≤ z.1 ∧ 0 ≤ z.2) ∧ (z.1 < L ∨ (z.1 = L ∧ z.2 ≤ C)) ∧
      ((z.1 = 1 ∧ z.2 = 0) ∨
        (∃ cell, resolveCell grid z = some cell ∧ wsChar cell.ch = false)) := by
  intro fuel
  induction fuel with
  | zero => intro L C z h hL hC; simp [skipRightLoop] at h
  | succ n ih =>
    intro L C z h hL hC
    simp only [skipRightLoop] at h
    cases hg : pyGet grid L with
    | none => simp only [hg] at h; cases h
    | some row =>
      simp only [hg] at h
      cases hc : pyGet row C with
      | none => simp only [hc] at h; cases h
      | some cell =>
        simp only [hc] at h
        by_cases hws : wsChar cell.ch = true
        · simp only [hws, if_true] at h
          by_cases hm1 : C - 1 = (-1 : Int)
          · simp only [if_pos hm1] at h
            by_cases hl1 : L = (1 : Int)
            · simp only [if_pos hl1] at h
              cases h
              exact ⟨⟨hL, le_refl 0⟩, Or.inr ⟨rfl, (by omega : (0 : Int) ≤ C)⟩,
                Or.inl ⟨hl1, rfl⟩⟩
            · simp only [if_neg hl1] at h
              cases hg2 : pyGet grid (L - 1) with
              | none => simp only [hg2] at h; cases h
              | some row2 =>
                simp only [hg2] at h
                have hrl : 1 ≤ row2.length := by
                  obtain ⟨lstr, _, hrl2⟩ := shape_row_length hsh (by omega) hg2
                  omega
                obtain ⟨hb, hm, hs3⟩ := ih (L - 1) ((row2.length : Int) - 1) z h
                  (by omega) (by omega)
                exact ⟨hb, by omega, hs3⟩
          · simp only [if_neg hm1] at h
            obtain ⟨hb, hm, hs3⟩ := ih L (C - 1) z h hL (by omega)
            exact ⟨hb, by omega, hs3⟩
        · simp only [Bool.not_eq_true] at hws
          simp only [hws, Bool.false_eq_true, if_false, ite_false] at h
          cases h
          refine ⟨⟨hL, hC⟩, Or.inr ⟨rfl, le_refl C⟩, Or.inr ⟨cell, ?_, hws⟩⟩
          simp [resolveCell, hg, hc]

theorem skip_whitespace_right_spec {r : report} {loc z : Int × Int}
    (hsh : r._stacks.map List.length = 0 :: r.lines.map (fun l => l.length + 1))
    (h : r.skip_whitespace_right loc = .ok z) (h1 : 1 ≤ loc.1) (h2 : 0 ≤ loc.2) :
    (1 ≤ z.1 ∧ 0 ≤ z.2) ∧ (z.1 < loc.1 ∨ (z.1 = loc.1 ∧ z.2 ≤ loc.2)) ∧
    ((z.1 = 1 ∧ z.2 = 0) ∨
      (∃ cell, resolveCell r._stacks z = some cell ∧ wsChar cell.ch = false)) :=
  skipRightLoop_spec r.lines r._stacks hsh _ loc.1 loc.2 z h h1 h2

theorem allWsB_resolve {r : report} {s e p : Int × Int} {cell : Cell}
    (hws : allWsB r s e = true) (hp1 : 1 ≤ p.1) (hp2 : 0 ≤ p.2)
    (hsle : locGtB s p = false) (hple : locGtB p e = false)
    (hcell : resolveCell r._stacks p = some cell) : wsChar cell.ch = true := by
  unfold resolveCell at hcell
  cases hrow : pyGet r._stacks p.1 with
  | none => rw [hrow] at hcell; simp at hcell
  | some row =>
    rw [hrow] at hcell
    simp only [Option.some_bind] at hcell
    have hrb := pyGet_some_bounds hrow
    have hcb := pyGet_some_bounds hcell
    rw [pyGet_nonneg _ _ (by omega : (0 : Int) ≤ p.1)] at hrow
    rw [pyGet_nonneg _ _ hp2] at hcell
    obtain ⟨hlt1, -⟩ := List.get?_eq_some.1 hrow
    obtain ⟨hlt2, -⟩ := List.get?_eq_some.1 hcell
    unfold allWsB at hws
    rw [List.all_eq_true] at hws
    have h1 := hws p.1.toNat (by rw [List.mem_range]; exact hlt1)
    simp only at h1
    have hgd1 : r._stacks.getD p.1.toNat ([] : List Cell) = row :=
      getD_of_get? _ hrow
    rw [hgd1, List.all_eq_true] at h1
    have h2 := h1 p.2.toNat (by rw [List.mem_range]; exact hlt2)
    simp only at h2
    have hgd2 : row.getD p.2.toNat (⟨[], none, []⟩ : Cell) = cell :=
      getD_of_get? _ hcell
    rw [hgd2, Int.toNat_of_nonneg (by omega : (0 : Int) ≤ p.1),
      Int.toNat_of_nonneg hp2, Prod.mk.eta] at h2
    have hd : decide (1 ≤ p.1) = true := decide_eq_true hp1
    simp only [hd, hsle, hple, Bool.not_false, Bool.and_true, Bool.true_and,
      Bool.not_true, Bool.false_or] at h2
    exact h2

/-- C7: when every cell of the normalized range holds whitespace, `enrich`
with `skip_whitespace` set leaves the report, and hence its rendering,
unchanged: either a whitespace scan fails before anything is mutated, or
both scans succeed with the adjusted start strictly past the adjusted end
and the call returns silently. -/
theorem C7_whitespace_range_noop (r : report) (hWf : Wf r) (start stop : Int × Int)
    (left right : List Char) (iml : Bool)
    (hs : inGridB r (r.normalize start) = true)
    (he : inGridB r (r.normalize stop) = true)
    (hws : allWsB r (r.normalize start) (r.normalize stop) = true) :
    (r.enrich start stop left right iml true).1 = r ∧
    (r.enrich start stop left right iml true).1.render = r.render := by
  suffices hsuf : (r.enrich start stop left right iml true).1 = r by
    exact ⟨hsuf, by rw [hsuf]⟩
  obtain ⟨rowS, hrowS, hns1, hns2, hns3⟩ := inGridB_spec hs
  obtain ⟨rowE, hrowE, hne1, hne2, hne3⟩ := inGridB_spec he
  cases hL : r.skip_whitespace_left (r.normalize start) with
  | error e =>
    simp only [report.enrich, hL, if_true]
  | ok s2 =>
    cases hR : r.skip_whitespace_right (r.normalize stop) with
    | error e =>
      simp only [report.enrich, hL, hR, if_true]
    | ok e2 =>
      have hWf2 : r._stacks.map List.length = 0 :: r.lines.map (fun l => l.length + 1) := hWf
      obtain ⟨⟨hs1b, hs2b⟩, hmL, hsL⟩ := skip_whitespace_left_spec hL hns1 hns2
      obtain ⟨⟨he1b, he2b⟩, hmR, hsR⟩ := skip_whitespace_right_spec hWf2 hR hne1 hne2
      have hgt : locGtB s2 e2 = true := by
        by_cases hinv : locGtB (r.normalize start) (r.normalize stop) = true
        · have h3 := locGtB_true_elim hinv
          exact locGtB_eq_true s2 e2 (by omega)
        · have hinv2 : locGtB (r.normalize start) (r.normalize stop) = false := by
            revert hinv
            cases locGtB (r.normalize start) (r.normalize stop) <;> simp
          have hinv3 := locGtB_false_elim _ _ hinv2
          rcases hsR with ⟨hz1, hz2⟩ | ⟨cellE, hcellE, hwsE⟩
          · rcases hsL with ⟨cellS, hcellS, hwsS⟩ | hc2
            · by_cases hcmp : locGtB s2 (r.normalize stop) = true
              · have h4 := locGtB_true_elim hcmp
                exact locGtB_eq_true s2 e2 (by omega)
              · have hcmp2 : locGtB s2 (r.normalize stop) = false := by
                  revert hcmp
                  cases locGtB s2 (r.normalize stop) <;> simp
                have hle2 : locGtB (r.normalize start) s2 = false :=
                  locGtB_eq_false _ _ (by omega)
                have hws2 := allWsB_resolve hws hs1b hs2b hle2 hcmp2 hcellS
                rw [hws2] at hwsS
                simp at hwsS
            · exact locGtB_eq_true s2 e2 (by omega)
          · by_cases hcmp : locGtB (r.normalize start) e2 = true
            · have h4 := locGtB_true_elim hcmp
              exact locGtB_eq_true s2 e2 (by omega)
            · have hcmp2 : locGtB (r.normalize start) e2 = false := by
                revert hcmp
                cases locGtB (r.normalize start) e2 <;> simp
              have hle2 : locGtB e2 (r.normalize stop) = false :=
                locGtB_eq_false _ _ (by omega)
              have hws2 := allWsB_resolve hws he1b he2b hcmp2 hle2 hcellE
              rw [hws2] at hwsE
              simp at hwsE
      simp only [report.enrich, hL, hR, hgt, if_true]

/-- Witness for C7: a leading space decorated on the report `" a"` with
`skip_whitespace` set; the call leaves the report untouched. -/
theorem C7_whitespace_range_noop_witness :
    Wf (report.init " a".toList 1 0) ∧
    inGridB (report.init " a".toList 1 0) ((report.init " a".toList 1 0).normalize (1, 0)) =
      true ∧
    allWsB (report.init " a".toList 1 0) ((report.init " a".toList 1 0).normalize (1, 0))
      ((report.init " a".toList 1 0).normalize (1, 0)) = true ∧
    ((report.init " a".toList 1 0).enrich (1, 0) (1, 0) "<".toList ">".toList false true).1 =
      report.init " a".toList 1 0 :=
  ⟨by decide, by decide, by decide,
    (C7_whitespace_range_noop (report.init " a".toList 1 0) (by decide) (1, 0) (1, 0)
      "<".toList ">".toList false (by decide) (by decide) (by decide)).1⟩


end Richreports
